import Mathlib

/-!
Verification development for the school-scraper pipeline.

The Python sources are shallowly embedded: pure logic is translated to
executable Lean definitions; network fetches and API responses are
parameters (functions into `Option`), so a crawl or a search run is a
pure fold over those parameters.  String handling models CPython string
operations on ASCII data (the code and all keyword tables are ASCII).
-/

namespace SchoolScraper

/-! ## String utilities modelling Python `str` operations -/

/-- Model of the membership test `needle == hay[:len(needle)]`. -/
def headMatches : List Char → List Char → Bool
  | [], _ => true
  | _ :: _, [] => false
  | a :: as, b :: bs => a == b && headMatches as bs

/-- Model of Python `needle in hay` (substring containment). -/
def subIn : List Char → List Char → Bool
  | n, [] => headMatches n []
  | n, h :: hs => headMatches n (h :: hs) || subIn n hs

/-- Model of Python `needle in hay` on `String`. -/
def strIn (needle hay : String) : Bool := subIn needle.data hay.data

/-- Model of Python `hay.endswith(needle)`. -/
def strEndsWith (hay needle : String) : Bool :=
  headMatches needle.data.reverse hay.data.reverse

/-- Model of Python `hay.startswith(needle)`. -/
def strStartsWith (hay needle : String) : Bool :=
  headMatches needle.data hay.data

/-- Model of Python `str.lower` (ASCII range; the embedded keyword tables
are all ASCII). -/
def pyLower (s : String) : String := String.mk (s.data.map Char.toLower)

/-- Model of Python `str.upper` (ASCII range). -/
def pyUpper (s : String) : String := String.mk (s.data.map Char.toUpper)

/-- The ASCII whitespace characters stripped by Python `str.strip()`. -/
def pyWsChar (c : Char) : Bool :=
  c == ' ' || c == '\t' || c == '\n' || c == '\x0d' || c == '\x0b' || c == '\x0c'

/-- Model of Python `str.strip()` (ASCII whitespace). -/
def pyStrip (s : String) : String :=
  String.mk (((s.data.dropWhile pyWsChar).reverse.dropWhile pyWsChar).reverse)

/-- Model of Python `str.split(sep)` for a one-character separator
(structural recursion, so that it evaluates inside the kernel). -/
def splitOnChar (sep : Char) : List Char → List (List Char)
  | [] => [[]]
  | c :: rest =>
    match splitOnChar sep rest with
    | [] => [[c]]
    | h :: t => if c = sep then [] :: h :: t else (c :: h) :: t

/-- Raw whitespace split (empty pieces still present). -/
def splitWsAux : List Char → List (List Char)
  | [] => [[]]
  | c :: rest =>
    match splitWsAux rest with
    | [] => [[c]]
    | h :: t => if pyWsChar c then [] :: h :: t else (c :: h) :: t

/-- Model of Python `str.split()` with no separator: split on whitespace
runs, dropping empty pieces. -/
def pySplitWs (s : String) : List String :=
  ((splitWsAux s.data).filter (fun t => t ≠ [])).map String.mk

/-- The text before the first occurrence of `sep`, i.e.
`s.split(sep)[0]` for a non-empty separator. -/
def takeBeforeSeq (sep : List Char) : List Char → List Char
  | [] => []
  | c :: rest =>
    if headMatches sep (c :: rest) then [] else c :: takeBeforeSeq sep rest

/-- Model of `str.replace(old, '')` for non-empty `old`: remove all
occurrences, left to right, non-overlapping.  The `Nat` fuel equals the
input length, keeping the recursion structural. -/
def removeSeqFuel (seq : List Char) : Nat → List Char → List Char
  | 0, s => s
  | _ + 1, [] => []
  | n + 1, c :: rest =>
    if headMatches seq (c :: rest) then removeSeqFuel seq n ((c :: rest).drop seq.length)
    else c :: removeSeqFuel seq n rest

def removeSeqAll (seq s : List Char) : List Char := removeSeqFuel seq s.length s

/-- `'/'.join` on character-list segments. -/
def joinSegs : List (List Char) → List Char
  | [] => []
  | [x] => x
  | x :: y :: t => x ++ '/' :: joinSegs (y :: t)

/-! ## Model of `urllib.parse`: `urlsplit`, `urlunsplit`, `urljoin`

Translated from CPython `urllib/parse.py` for URLs without `params`
(no `;` component, which never arises in this pipeline). -/

structure UrlParts where
  scheme : String
  netloc : String
  path : String
  query : String
  fragment : String
deriving DecidableEq, Repr

/-- Characters allowed in a URL scheme after the initial letter. -/
def schemeChar (c : Char) : Bool :=
  c.isAlpha || c.isDigit || c == '+' || c == '-' || c == '.'

/-- Split a leading `scheme:` from a URL, as CPython `urlsplit` does:
the text before the first `:` qualifies when it is non-empty, starts
with a letter and consists of scheme characters. -/
def splitScheme (s : List Char) : Option (List Char × List Char) :=
  match s.findIdx? (· == ':') with
  | none => none
  | some i =>
    let front := s.take i
    let back := s.drop (i + 1)
    match front with
    | [] => none
    | c :: _ => if c.isAlpha && front.all schemeChar then some (front, back) else none

/-- Split the netloc (text up to the next `/`, `?` or `#`) from the rest. -/
def splitNetloc (s : List Char) : List Char × List Char :=
  (s.takeWhile (fun c => c ≠ '/' && c ≠ '?' && c ≠ '#'),
   s.dropWhile (fun c => c ≠ '/' && c ≠ '?' && c ≠ '#'))

/-- Split a list at the first occurrence of `c`, excluding `c` itself. -/
def splitFirst (c : Char) (s : List Char) : Option (List Char × List Char) :=
  match s.findIdx? (· == c) with
  | none => none
  | some i => some (s.take i, s.drop (i + 1))

/-- Model of `urllib.parse.urlsplit` (fragments allowed, no params). -/
def urlsplit (url : String) : UrlParts :=
  let s := url.data
  let (scheme, rest) :=
    match splitScheme s with
    | some (sc, r) => ((String.mk sc).data.map Char.toLower, r)
    | none => ([], s)
  let (netloc, rest) :=
    match rest with
    | '/' :: '/' :: r => splitNetloc r
    | _ => ([], rest)
  let (rest, fragment) :=
    match splitFirst '#' rest with
    | some (a, b) => (a, b)
    | none => (rest, [])
  let (path, query) :=
    match splitFirst '?' rest with
    | some (a, b) => (a, b)
    | none => (rest, [])
  { scheme := String.mk scheme, netloc := String.mk netloc,
    path := String.mk path, query := String.mk query, fragment := String.mk fragment }

/-- Model of `urllib.parse.urlunsplit` (no params). -/
def urlunsplit (p : UrlParts) : String :=
  let url := p.path
  let url :=
    if p.netloc ≠ "" || (url ≠ "" && strStartsWith url "//") then
      let url := if url ≠ "" && !strStartsWith url "/" then "/" ++ url else url
      "//" ++ p.netloc ++ url
    else url
  let url := if p.scheme ≠ "" then p.scheme ++ ":" ++ url else url
  let url := if p.query ≠ "" then url ++ "?" ++ p.query else url
  if p.fragment ≠ "" then url ++ "#" ++ p.fragment else url

/-- The `uses_relative` scheme list of `urllib.parse`. -/
def usesRelative : List String :=
  ["", "ftp", "http", "gopher", "nntp", "imap", "wais", "file", "https", "shttp",
   "mms", "prospero", "rtsp", "rtspu", "sftp", "svn", "svn+ssh", "ws", "wss"]

/-- The `uses_netloc` scheme list of `urllib.parse`. -/
def usesNetloc : List String :=
  ["", "ftp", "http", "gopher", "nntp", "telnet", "imap", "wais", "file", "mms",
   "https", "shttp", "snews", "prospero", "rtsp", "rtspu", "rsync", "svn",
   "svn+ssh", "sftp", "nfs", "git", "git+ssh", "ws", "wss", "itms-services"]

/-- The relative-path merge of CPython `urljoin`: keep first and last
segment, drop empty middle segments (`segments[1:-1] = filter(None, ...)`). -/
def filterMiddle (l : List (List Char)) : List (List Char) :=
  match l with
  | [] => []
  | [x] => [x]
  | x :: y :: rest =>
    x :: ((y :: rest).dropLast.filter (fun t => t ≠ [])) ++ [(y :: rest).getLast (by simp)]

/-- The dot-segment resolution loop of CPython `urljoin`. -/
def resolveSegments (segments : List (List Char)) : List (List Char) :=
  let resolved := segments.foldl
    (fun acc seg =>
      if seg = ['.', '.'] then acc.dropLast
      else if seg = ['.'] then acc
      else acc ++ [seg]) []
  if segments.getLast? = some ['.', '.'] || segments.getLast? = some ['.'] then
    resolved ++ [[]]
  else resolved

/-- Model of `urllib.parse.urljoin` (no params). -/
def urljoin (base url : String) : String :=
  if base = "" then url
  else if url = "" then base
  else
    let b := urlsplit base
    let u := urlsplit url
    let scheme := if u.scheme = "" then b.scheme else u.scheme
    if scheme ≠ b.scheme || ¬ usesRelative.contains scheme then url
    else
      let netloc := if usesNetloc.contains scheme && u.netloc ≠ "" then u.netloc else b.netloc
      if usesNetloc.contains scheme && u.netloc ≠ "" then
        urlunsplit { scheme := scheme, netloc := u.netloc, path := u.path,
                     query := u.query, fragment := u.fragment }
      else if u.path = "" then
        urlunsplit { scheme := scheme, netloc := netloc, path := b.path,
                     query := if u.query = "" then b.query else u.query,
                     fragment := u.fragment }
      else
        let bparts := splitOnChar '/' b.path.data
        let baseParts := if bparts.getLast? = some [] then bparts else bparts.dropLast
        let segments :=
          if strStartsWith u.path "/" then splitOnChar '/' u.path.data
          else filterMiddle (baseParts ++ splitOnChar '/' u.path.data)
        let joined := joinSegs (resolveSegments segments)
        urlunsplit { scheme := scheme, netloc := netloc,
                     path := if joined = [] then "/" else String.mk joined,
                     query := u.query, fragment := u.fragment }

/-! ## Step 2: the page-discovery crawler (`src/step2.py`, `PageDiscoverer`)

HTML parsing is external (BeautifulSoup): a fetched page is modelled by
the data the crawler reads off it — its title, the list of `href`
attribute values of its anchors, the mailto-link count, the count of
name-pattern regex matches, and the lowercased joined heading text.
Network I/O is a parameter `fetch : String → Option PageData`; `none`
models `safe_get` exhausting its retries (the `except` branch). -/

def highValueKeywords : List String :=
  ["staff", "faculty", "directory", "administration", "admin", "team",
   "leadership", "our-team", "who-we-are", "meet-our", "personnel",
   "board", "principal", "superintendent"]

def supportValueKeywords : List String := ["about", "mission", "vision", "history"]

def lowValueKeywords : List String := ["contact", "info", "location"]

def zeroPriorityKeywords : List String :=
  ["contact", "contact-us", "contactus", "contact_us",
   "admission", "admissions", "apply", "enrollment", "enroll"]

def badUrlKeywords : List String :=
  ["calendar", "athletic", "sports", "admission", "apply", "enroll",
   "event", "news", "blog", "lunch", "menu", "forms", "download",
   "linktr.ee", "facebook.com", "instagram.com", "twitter.com",
   "youtube.com", "vimeo.com", "docs.google.com", "drive.google.com"]

def badDomains : List String :=
  ["linktr.ee", "facebook.com", "instagram.com", "twitter.com",
   "youtube.com", "vimeo.com", "docs.google.com", "drive.google.com"]

def hashKeywords : List String :=
  ["team", "staff", "faculty", "leadership", "directory", "admin"]

/-- True when some zero-priority keyword occurs in the lowercased URL. -/
def hasZeroKeyword (url : String) : Bool :=
  zeroPriorityKeywords.any (fun k => strIn k (pyLower url))

/-- Number of keywords of `kws` occurring in `s`; each match contributes
once, as in the `for keyword in ...: if keyword in url_lower` loops. -/
def countIn (kws : List String) (s : String) : Int :=
  ((kws.filter (fun k => strIn k s)).length : Int)

/-- `PageDiscoverer.score_page_priority` (step2.py:128-164). -/
def scorePagePriority (url : String) : Int :=
  let urlLower := pyLower url
  let netloc := (urlsplit urlLower).netloc
  if hasZeroKeyword url then 0
  else
    let score := 25 * countIn highValueKeywords urlLower
      + 10 * countIn supportValueKeywords urlLower
      + 5 * countIn lowValueKeywords urlLower
      - 25 * countIn badUrlKeywords urlLower
      - (if badDomains.any (fun d => strIn d netloc) then 40 else 0)
    let hashBonus :=
      if strIn "#" urlLower then
        match splitOnChar '#' urlLower.data with
        | _ :: h :: _ => if hashKeywords.any (fun k => subIn k.data h) then 20 else 0
        | _ => 0
      else 0
    score + hashBonus

/-- What the crawler reads from a fetched page (see section comment). -/
structure PageData where
  title : String
  hrefs : List String
  mailtoCount : Nat
  nameMatchCount : Nat
  headingTextLower : String
deriving DecidableEq

/-- `PageDiscoverer.score_page_content` (step2.py:166-195). -/
def scorePageContent (pd : PageData) : Int :=
  (if 5 ≤ pd.mailtoCount then 40
   else if 2 ≤ pd.mailtoCount then 25
   else if pd.mailtoCount = 1 then 10 else 0)
  + (if 10 ≤ pd.nameMatchCount then 30
     else if 5 ≤ pd.nameMatchCount then 15 else 0)
  + (if highValueKeywords.any (fun k => strIn k pd.headingTextLower) then 10 else 0)

def importantFragmentKeywords : List String :=
  ["team", "staff", "faculty", "leadership", "directory",
   "contact", "about", "administrat", "office"]

/-- The `clean_url` built by `extract_links` from a parsed link: the
fragment is kept only when it contains an important keyword. -/
def cleanUrlOf (p : UrlParts) : String :=
  let frag := if p.fragment ≠ "" then pyLower p.fragment else ""
  if importantFragmentKeywords.any (fun k => strIn k frag) && p.fragment ≠ "" then
    p.scheme ++ "://" ++ p.netloc ++ p.path ++ "#" ++ p.fragment
  else
    p.scheme ++ "://" ++ p.netloc ++ p.path

def skipSuffixes : List String :=
  [".pdf", ".jpg", ".png", ".gif", ".jpeg", ".doc", ".docx", ".zip", ".mp4", ".mp3"]

def skipSubstrings : List String :=
  ["/wp-admin/", "/wp-login", "/wp-content/uploads/", "javascript:", "mailto:", "tel:"]

/-- The `skip_patterns` regex check of `extract_links`: each pattern is a
literal, either anchored at the end (`\.pdf$`, ...) or a plain substring,
searched case-insensitively. -/
def skipMatch (clean : String) : Bool :=
  let lc := pyLower clean
  skipSuffixes.any (fun t => strEndsWith lc t) || skipSubstrings.any (fun t => strIn t lc)

/-- Processing of a single href by `extract_links`: join against the
base, keep only links on the base domain, clean, drop skip-pattern hits. -/
def linkOf (base href : String) : Option String :=
  let p := urlsplit (urljoin base href)
  if p.netloc = (urlsplit base).netloc then
    let clean := cleanUrlOf p
    if skipMatch clean then none else some clean
  else none

/-- Set insertion, realised as first-occurrence list insertion (the
Python code accumulates into a `set`; this is a deterministic
representative of its contents). -/
def insertNew (acc : List String) (c : String) : List String :=
  if c ∈ acc then acc else acc ++ [c]

/-- `PageDiscoverer.extract_links` (step2.py:79-126) on the anchor hrefs
of a page. -/
def extractLinks (base : String) (hrefs : List String) : List String :=
  (hrefs.filterMap (linkOf base)).foldl insertNew []

def staffKeywordsInUrl : List String :=
  ["staff", "faculty", "directory", "administration", "admin",
   "team", "leadership", "personnel"]

/-- Crawl configuration: the arguments of `discover_pages` plus the
fetch oracle. -/
structure CrawlCfg where
  baseUrl : String
  maxDepth : Nat
  maxPages : Nat
  fetch : String → Option PageData

/-- A frontier entry `(neg_priority, depth, url)` as pushed on the heap. -/
abbrev FEntry := Int × Nat × String

/-- One entry of `discovered_pages` (school name omitted: it is copied
verbatim and never read by the control flow). -/
structure PageInfo where
  url : String
  title : String
  score : Int
  depth : Nat
deriving DecidableEq

structure CrawlState where
  frontier : List FEntry
  visited : Finset String
  pages : List PageInfo
  staffFound : Nat
  fetchLog : List (String × Nat)
deriving DecidableEq

structure CrawlResult where
  pages : List PageInfo
  fetchLog : List (String × Nat)
deriving DecidableEq

/-- Tuple comparison `(int, int, str)` as used by `heapq`. -/
def entryLtB (a b : FEntry) : Bool :=
  a.1 < b.1 || (a.1 == b.1 && (a.2.1 < b.2.1 || (a.2.1 == b.2.1 && decide (a.2.2 < b.2.2))))

def minFEntry (e : FEntry) : List FEntry → FEntry
  | [] => e
  | f :: fs => minFEntry (if entryLtB f e then f else e) fs

/-- `heapq.heappop`: remove and return a least element. -/
def popMin (l : List FEntry) : Option (FEntry × List FEntry) :=
  match l with
  | [] => none
  | e :: es =>
    let m := minFEntry e es
    some (m, (e :: es).erase m)

/-- Stable insertion before the first element of strictly smaller key. -/
def insDescK {α : Type} (key : α → Int) (r : α) : List α → List α
  | [] => [r]
  | x :: xs => if key x < key r then r :: x :: xs else x :: insDescK key r xs

/-- Stable descending sort by an integer key, modelling CPython
`list.sort(key=..., reverse=True)` (stable among equal keys). -/
def sortDescK {α : Type} (key : α → Int) (l : List α) : List α :=
  l.foldl (fun acc r => insDescK key r acc) []

/-- The post-loop treatment of `discovered_pages` (step2.py:312-317):
sort by score descending, keep positive scores, truncate to 3. -/
def finishPages (pages : List PageInfo) : List PageInfo :=
  ((sortDescK (fun p => p.score) pages).filter (fun p => decide (0 < p.score))).take 3

def finishRun (s : CrawlState) : CrawlResult :=
  { pages := finishPages s.pages, fetchLog := s.fetchLog }

/-- The links pushed after a successful fetch (step2.py:290-304): score
the novel extracted links, sort descending, take 75, push at depth+1. -/
def stepPushes (cfg : CrawlCfg) (visited' : Finset String) (pagesLen : Nat)
    (depth : Nat) (pd : PageData) : List FEntry :=
  let newLinks := extractLinks cfg.baseUrl pd.hrefs
  let scored := (newLinks.filter (fun l => decide (l ∉ visited'))).map
    (fun l => (l, scorePagePriority l))
  ((sortDescK (fun x => x.2) scored).take 75).foldl
    (fun acc lp =>
      if lp.1 ∉ visited' ∧ pagesLen < cfg.maxPages then acc ++ [(-lp.2, depth + 1, lp.1)]
      else acc) []

inductive StepOut
  | done (r : CrawlResult)
  | next (s : CrawlState)
deriving DecidableEq

/-- The staff-keyword test applied to a fetched URL (step2.py:271-273). -/
def staffHitB (url : String) : Bool :=
  staffKeywordsInUrl.any (fun k => strIn k (pyLower url))

/-- The staff counter after processing a fetched URL. -/
def staffBump (n : Nat) (url : String) : Nat :=
  if staffHitB url then n + 1 else n

/-- The `page_info` record appended for a fetched page (step2.py:276-283):
its score is the pre-fetch URL score plus the content score. -/
def pageOf (url : String) (pd : PageData) (depth : Nat) : PageInfo :=
  { url := url, title := pd.title,
    score := scorePagePriority url + scorePageContent pd, depth := depth }

/-- The state right after a fetch attempt: entry popped, URL inserted
into `visited` (before the fetch, step2.py:250), attempt logged. -/
def fetchedState (s : CrawlState) (url : String) (depth : Nat) (rest : List FEntry) :
    CrawlState :=
  { s with frontier := rest, visited := insert url s.visited,
           fetchLog := s.fetchLog ++ [(url, depth)] }

/-- One iteration of the `while to_visit and len(discovered_pages) <
max_pages_per_school` loop of `discover_pages` (step2.py:229-310),
including the loop-condition test.  `done` models leaving the loop and
running the post-loop sort/filter/truncate; `next` models `continue` or
falling through to the next iteration.  `fetchLog` records each
`safe_get` attempt with its depth (the counter `high_priority_found` is
only printed and is not modelled). -/
def crawlStep (cfg : CrawlCfg) (s : CrawlState) : StepOut :=
  if s.frontier = [] ∨ ¬ s.pages.length < cfg.maxPages then .done (finishRun s)
  else
    match popMin s.frontier with
    | none => .done (finishRun s)
    | some ((negP, depth, url), rest) =>
      if url ∈ s.visited ∨ cfg.maxDepth < depth then .next { s with frontier := rest }
      else if 3 ≤ s.staffFound then .done (finishRun s)
      else if cfg.maxPages ≤ s.pages.length then .done (finishRun s)
      else if -negP ≤ 0 ∧ 0 < depth then .next { s with frontier := rest }
      else
        match cfg.fetch url with
        | none => .next (fetchedState s url depth rest)
        | some pd =>
          if 3 ≤ staffBump s.staffFound url then
            .done (finishRun { fetchedState s url depth rest with
              pages := s.pages ++ [pageOf url pd depth],
              staffFound := staffBump s.staffFound url })
          else if depth < cfg.maxDepth ∧ (s.pages ++ [pageOf url pd depth]).length < cfg.maxPages then
            .next { fetchedState s url depth rest with
              frontier := rest ++ stepPushes cfg (insert url s.visited)
                (s.pages ++ [pageOf url pd depth]).length depth pd,
              pages := s.pages ++ [pageOf url pd depth],
              staffFound := staffBump s.staffFound url }
          else
            .next { fetchedState s url depth rest with
              pages := s.pages ++ [pageOf url pd depth],
              staffFound := staffBump s.staffFound url }

/-- The crawl loop with explicit fuel; `none` means the fuel ran out
before the loop exited. -/
def crawlLoop (cfg : CrawlCfg) : Nat → CrawlState → Option CrawlResult
  | 0, _ => none
  | fuel + 1, s =>
    match crawlStep cfg s with
    | .done r => some r
    | .next s' => crawlLoop cfg fuel s'

def initState (cfg : CrawlCfg) : CrawlState :=
  { frontier := [(0, 0, cfg.baseUrl)], visited := ∅, pages := [],
    staffFound := 0, fetchLog := [] }

/-- `PageDiscoverer.discover_pages` (step2.py:197-325): empty base URL
short-circuits to an empty result, otherwise run the crawl loop from the
seeded frontier. -/
def discoverPages (cfg : CrawlCfg) (fuel : Nat) : Option CrawlResult :=
  if cfg.baseUrl = "" then some { pages := [], fetchLog := [] }
  else crawlLoop cfg fuel (initState cfg)

/-! ## Step 1: bounded discovery client (`src/step1.py`, `SchoolSearcher`)

The HTTP layer is a parameter `api : Nat → Option (List Place)`: the
value of `api k` is the list of places of the (k+1)-th outbound call
(`none` models a non-200 status, an exception, or a response without a
`places` key). -/

/-- Regex `\s` character class (ASCII model, as everywhere here). -/
def reWsChar (c : Char) : Bool := pyWsChar c

def isUpperAZ (c : Char) : Bool := 'A' ≤ c && c ≤ 'Z'

def fiveDigits : List Char → Bool
  | d1 :: d2 :: d3 :: d4 :: d5 :: _ =>
    d1.isDigit && d2.isDigit && d3.isDigit && d4.isDigit && d5.isDigit
  | _ => false

/-- Attempt to match `,\s*([A-Z]{2})\s+\d{5}` at the head of the list,
returning the two captured letters.  The character classes are disjoint,
so the greedy scan is the unique match. -/
def matchStateZipAt : List Char → Option (Char × Char)
  | ',' :: rest =>
    (match rest.dropWhile reWsChar with
     | a :: b :: rest2 =>
       if isUpperAZ a && isUpperAZ b then
         match rest2 with
         | c :: _ =>
           if reWsChar c && fiveDigits (rest2.dropWhile reWsChar) then some (a, b) else none
         | [] => none
       else none
     | _ => none)
  | _ => none

/-- `re.search(r',\s*([A-Z]{2})\s+\d{5}', ...)`: the leftmost match. -/
def findStateZip : List Char → Option (Char × Char)
  | [] => none
  | c :: rest =>
    match matchStateZipAt (c :: rest) with
    | some g => some g
    | none => findStateZip rest

/-- `SchoolSearcher._is_texas_result` (step1.py:56-74). -/
def isTexasResult (detectedState formattedAddress : String) : Bool :=
  (detectedState ≠ "" &&
    (pyLower (pyStrip detectedState) = "tx" || pyLower (pyStrip detectedState) = "texas"))
  || (let au := pyUpper formattedAddress
      strIn ", TX " au || strEndsWith au ", TX" || strIn " TEXAS" au)
  || (match findStateZip formattedAddress.data with
      | some (a, b) => a = 'T' && b = 'X'
      | none => false)

/-- One `addressComponents` entry of a places response. -/
structure AddrComp where
  compTypes : List String
  shortText : String
  longText : String
  text : String
deriving DecidableEq

/-- One place record of a places response (`displayName` is modelled by
its `text` member, the only part the code reads). -/
structure Place where
  pid : String
  displayName : String
  formattedAddress : String
  websiteUri : String
  nationalPhoneNumber : String
  rating : String
  userRatingCount : String
  placeTypes : List String
  businessStatus : String
  addressComponents : List AddrComp
deriving DecidableEq

/-- `SchoolSearcher._extract_state_and_county` (step1.py:40-54). -/
def extractStateCounty (comps : List AddrComp) : String × String :=
  comps.foldl
    (fun (acc : String × String) c =>
      let tv := pyStrip
        (if c.shortText ≠ "" then c.shortText
         else if c.longText ≠ "" then c.longText else c.text)
      let st := if "administrative_area_level_1" ∈ c.compTypes ∧ acc.1 = "" then tv else acc.1
      let ct := if "administrative_area_level_2" ∈ c.compTypes ∧ acc.2 = "" then tv else acc.2
      (st, ct))
    ("", "")

/-- A school record as appended to the per-county result list. -/
structure School where
  place_id : String
  name : String
  address : String
  website : String
  phone : String
  rating : String
  user_ratings : String
  schoolTypes : String
  business_status : String
  county : String
  state : String
  detected_state : String
  found_via : String
deriving DecidableEq

/-- The mutable searcher state read and written by `search_county`. -/
structure SearchState where
  totalApiCalls : Nat
  seenPlaceIds : List String
  nonTexasSkipped : Nat
  schoolsWithWebsites : Nat
deriving DecidableEq

/-- `SchoolSearcher._hit_global_limit` (step1.py:34-38). -/
def hitGlobalLimit (globalMax : Option Nat) (st : SearchState) : Bool :=
  match globalMax with
  | none => false
  | some n => n ≤ st.totalApiCalls

/-- `limit is not None and limit <= n` (the shape of every cap check). -/
def optLimitHit (lim : Option Nat) (n : Nat) : Bool :=
  match lim with
  | some m => m ≤ n
  | none => false

/-- The per-county query templates of `search_county` (step1.py:89-106). -/
def searchTermsFor (county state : String) : List String :=
  ["Christian schools in " ++ county ++ " County, " ++ state,
   "Christian academy in " ++ county ++ " County, " ++ state,
   "Catholic schools in " ++ county ++ " County, " ++ state,
   "Catholic elementary school in " ++ county ++ " County, " ++ state,
   "Baptist schools in " ++ county ++ " County, " ++ state,
   "Methodist schools in " ++ county ++ " County, " ++ state,
   "Lutheran schools in " ++ county ++ " County, " ++ state,
   "Presbyterian schools in " ++ county ++ " County, " ++ state,
   "Episcopal schools in " ++ county ++ " County, " ++ state,
   "Pentecostal schools in " ++ county ++ " County, " ++ state,
   "Assembly of God schools in " ++ county ++ " County, " ++ state,
   "Church of God schools in " ++ county ++ " County, " ++ state,
   "nondenominational Christian schools in " ++ county ++ " County, " ++ state,
   "evangelical schools in " ++ county ++ " County, " ++ state,
   "private religious schools in " ++ county ++ " County, " ++ state,
   "parochial schools in " ++ county ++ " County, " ++ state]

/-- Processing of one place of one response (step1.py:140-178): Texas
gate, place-id dedup, school record construction and statistics. -/
def processPlace (county query : String) (st : SearchState) (schools : List School)
    (p : Place) : SearchState × List School :=
  let ds := (extractStateCounty p.addressComponents).1
  let dc := (extractStateCounty p.addressComponents).2
  if ¬ isTexasResult ds p.formattedAddress then
    ({ st with nonTexasSkipped := st.nonTexasSkipped + 1 }, schools)
  else if p.pid ∈ st.seenPlaceIds then (st, schools)
  else
    let sch : School :=
      { place_id := p.pid, name := p.displayName, address := p.formattedAddress,
        website := p.websiteUri, phone := p.nationalPhoneNumber, rating := p.rating,
        user_ratings := p.userRatingCount,
        schoolTypes := String.intercalate ", " p.placeTypes,
        business_status := p.businessStatus,
        county := pyStrip (String.mk (removeSeqAll "County".data
          (if dc ≠ "" then dc else county).data)),
        state := "Texas", detected_state := ds,
        found_via := String.mk (takeBeforeSeq " in ".data query.data) }
    let st := { st with seenPlaceIds := st.seenPlaceIds ++ [p.pid] }
    let st :=
      if sch.website ≠ "" then
        { st with schoolsWithWebsites := st.schoolsWithWebsites + 1 }
      else st
    (st, schools ++ [sch])

/-- The query loop of `search_county` (step1.py:113-191): budget checks
before each call, counter increment, response processing, and the
post-body break checks.  (`county_new_schools` equals the length of the
returned per-county list and is not tracked separately.) -/
def searchCountyGo (api : Nat → Option (List Place)) (globalMax : Option Nat)
    (maxApiCalls perCountyLimit : Option Nat) (county : String) :
    List String → SearchState → List School → Nat → SearchState × List School
  | [], st, schools, _ => (st, schools)
  | q :: qs, st, schools, countyCalls =>
    if optLimitHit maxApiCalls st.totalApiCalls || hitGlobalLimit globalMax st then
      (st, schools)
    else if optLimitHit perCountyLimit countyCalls then (st, schools)
    else
      let callIdx := st.totalApiCalls
      let st := { st with totalApiCalls := st.totalApiCalls + 1 }
      let countyCalls := countyCalls + 1
      let stSchools :=
        match api callIdx with
        | none => (st, schools)
        | some places =>
          places.foldl (fun acc p => processPlace county q acc.1 acc.2 p) (st, schools)
      let st := stSchools.1
      let schools := stSchools.2
      if optLimitHit maxApiCalls st.totalApiCalls || hitGlobalLimit globalMax st
          || optLimitHit perCountyLimit countyCalls then
        (st, schools)
      else searchCountyGo api globalMax maxApiCalls perCountyLimit county qs st schools countyCalls

/-- `SchoolSearcher.search_county` (step1.py:76-193). -/
def searchCounty (api : Nat → Option (List Place)) (globalMax : Option Nat)
    (county state : String) (maxSearchTerms maxApiCalls perCountyLimit : Option Nat)
    (st : SearchState) : SearchState × List School :=
  let terms :=
    match maxSearchTerms with
    | some m => (searchTermsFor county state).take m
    | none => searchTermsFor county state
  searchCountyGo api globalMax maxApiCalls perCountyLimit county terms st [] 0

/-- `SchoolSearcher.search_batch_counties` (step1.py:244-298) restricted
to its pure loop: global-limit check before each county, `search_county`
with no per-county limits, accumulation, global-limit check after.
The input list stands for the already shuffled batch. -/
def searchBatchCounties (api : Nat → Option (List Place)) (globalMax : Option Nat)
    (state : String) : List String → SearchState → List School → SearchState × List School
  | [], st, acc => (st, acc)
  | c :: cs, st, acc =>
    if hitGlobalLimit globalMax st then (st, acc)
    else
      let r := searchCounty api globalMax c state none none none st
      let acc := acc ++ r.2
      if hitGlobalLimit globalMax r.1 then (r.1, acc)
      else searchBatchCounties api globalMax state cs r.1 acc

/-! ## Step 7: final compilation (`src/step7.py`, `FinalCompiler`)

A pandas cell is either `NaN` or a string; `FVal` models that.  Note
`float('nan')` is truthy in Python, so `FVal.truthy` holds of `nanv`. -/

inductive FVal
  | nanv
  | strv (s : String)
deriving DecidableEq

/-- `pd.isna`. -/
def FVal.isna : FVal → Bool
  | nanv => true
  | strv _ => false

/-- Python truthiness of a cell value (`NaN` is a truthy float). -/
def FVal.truthy : FVal → Bool
  | nanv => true
  | strv s => s ≠ ""

/-- `fillna('')` / reading a cell as a string. -/
def FVal.fill : FVal → String
  | nanv => ""
  | strv s => s

/-- Python `str.isprintable`: exact on ASCII; on the non-ASCII side the
model excludes the C1 controls and the format/separator characters this
code manipulates (zero-width characters, BOM, NEL, NBSP, line and
paragraph separators). -/
def pyPrintable (c : Char) : Bool :=
  if c.toNat < 128 then decide (0x20 ≤ c.toNat ∧ c.toNat ≤ 0x7e)
  else !(decide ((0x80 ≤ c.toNat ∧ c.toNat ≤ 0xa0) ∨
        c.toNat ∈ [0x200b, 0x200c, 0x200d, 0x2028, 0x2029, 0xfeff]))

/-- `str.replace('â€‹', '')`: remove the three-character mojibake
sequence U+00E2 U+20AC U+2039, left to right, non-overlapping. -/
def removeMoji : List Char → List Char
  | a :: b :: c :: rest =>
    if a = Char.ofNat 0xE2 ∧ b = Char.ofNat 0x20AC ∧ c = Char.ofNat 0x2039 then removeMoji rest
    else a :: removeMoji (b :: c :: rest)
  | l => l

/-- The zero-width characters of the `lstrip` call. -/
def zwChars : List Char :=
  [Char.ofNat 0x200B, Char.ofNat 0x200C, Char.ofNat 0x200D, Char.ofNat 0xFEFF]

/-- Character class `[a-zA-Z0-9._%+-]` of the email regex local part. -/
def emailLocalChar (c : Char) : Bool :=
  c.isAlpha || c.isDigit || c = '.' || c = '_' || c = '%' || c = '+' || c = '-'

/-- Character class `[a-zA-Z0-9.-]` of the email regex domain part. -/
def emailDomainChar (c : Char) : Bool :=
  c.isAlpha || c.isDigit || c = '.' || c = '-'

/-- The domain side of `^[a-zA-Z0-9._%+-]+@[a-zA-Z0-9.-]+\.[a-zA-Z]{2,}$`:
some split on a dot has a non-empty all-class prefix and an alphabetic
suffix of length at least 2 (the existential over split points is
exactly the backtracking semantics of the anchored pattern). -/
def emailDomainMatch (d : List Char) : Bool :=
  (List.range d.length).any (fun i =>
    d.get? i == some '.' && 1 ≤ i && (d.take i).all emailDomainChar &&
    2 ≤ (d.drop (i + 1)).length && (d.drop (i + 1)).all Char.isAlpha)

/-- `re.match(email_pattern, email)` ≠ None, for the anchored pattern
`^[a-zA-Z0-9._%+-]+@[a-zA-Z0-9.-]+\.[a-zA-Z]{2,}$`.  Both classes
exclude `@`, so the split is at the unique usable `@`. -/
def emailRegexMatch (s : List Char) : Bool :=
  match splitFirst '@' s with
  | none => false
  | some (loc, rest) =>
    loc ≠ [] && loc.all emailLocalChar && !rest.contains '@' && emailDomainMatch rest

/-- `FinalCompiler.clean_email` (step7.py:51-137). -/
def cleanEmail (v : FVal) : String :=
  match v with
  | .nanv => ""
  | .strv s0 =>
    if s0 = "" then ""
    else
      let e1 := (pyStrip s0).data
      let e2 := removeMoji e1
      let e3 := e2.dropWhile (fun c => c ∈ zwChars)
      let e4 :=
        match e3 with
        | c :: rest => if c = Char.ofNat 0xFEFF then rest else e3
        | [] => e3
      let e5 := e4.dropWhile (fun c => ¬ pyPrintable c ∧ c ≠ '@')
      let e6 := e5.filter (fun c =>
        c = '@' ∨ (c.toNat < 128 ∧ (pyPrintable c ∨ c = '.' ∨ c = '_' ∨ c = '-' ∨ c = '+')))
      let email := pyStrip (String.mk e6)
      if email = "" ∨ ¬ strIn "@" email then ""
      else
        match splitOnChar '@' email.data with
        | [loc, domain] =>
          if loc = [] then ""
          else if ¬ domain.contains '.' ∨ ((splitOnChar '.' domain).getLastD []).length < 2 then ""
          else if strIn " " email ∨ 1 < (pySplitWs email).length then ""
          else if ¬ emailRegexMatch email.data then ""
          else pyLower email
        | _ => ""

def invalidEmails : List String :=
  ["info@", "contact@", "admin@", "office@", "webmaster@",
   "noreply@", "no-reply@", "hello@", "support@"]

/-- `FinalCompiler.is_valid_email` (step7.py:139-155). -/
def isValidEmail (v : FVal) : Bool :=
  match v with
  | .nanv => false
  | .strv s =>
    if s = "" then false
    else
      let c := cleanEmail v
      if c = "" then false
      else !(invalidEmails.any (fun t => strIn t c))

def genericNamePatterns : List String :=
  ["about", "admissions", "contact us", "home", "welcome",
   "staff directory", "faculty", "administration", "our team",
   "meet our", "who we are", "school information", "general information"]

def placeholderNames : List String :=
  ["john doe", "jane doe", "john smith", "jane smith",
   "bob jones", "test user", "example name", "sample user",
   "john test", "jane test", "placeholder", "demo user",
   "john example", "jane example", "test name", "sample name"]

/-- `FinalCompiler.is_valid_name` (step7.py:177-208). -/
def isValidName (v : FVal) : Bool :=
  match v with
  | .nanv => false
  | .strv name =>
    if name = "" then false
    else
      let nl := pyLower (pyStrip name)
      if placeholderNames.any (fun p => p = nl || strIn p nl) then false
      else if genericNamePatterns.any (fun p => strIn p nl) then false
      else
        let parts := pySplitWs name
        if parts.length < 1 ∨ 5 < parts.length then false
        else name.data.any (fun c => c.isAlpha)

/-- One contact row of the compilation stage. -/
structure CRow where
  school_name : FVal
  first_name : FVal
  last_name : FVal
  title : FVal
  email : FVal
  phone : FVal
  source_url : FVal
  confidence_score : Nat
deriving DecidableEq

/-- The email component of the confidence score (step7.py:245-249):
20 points when the email cell is truthy, non-NaN, non-blank and valid. -/
def emailPtsV (v : FVal) : Nat :=
  if v.truthy && !v.isna && pyStrip v.fill ≠ "" then
    (if isValidEmail v then 20 else 0)
  else 0

/-- The name-completeness component (step7.py:251-254). -/
def namePtsV (f l : FVal) : Nat :=
  if f.truthy && l.truthy then 30
  else if f.truthy || l.truthy then 15
  else 0

/-- The title-presence component (step7.py:257-258). -/
def titlePtsV (v : FVal) : Nat :=
  if v.truthy && !v.isna then 20 else 0

/-- The phone-presence component (step7.py:261-262). -/
def phonePtsV (v : FVal) : Nat :=
  if v.truthy && !v.isna && pyStrip v.fill ≠ "" then 20 else 0

/-- `FinalCompiler.calculate_confidence_score` (step7.py:237-265). -/
def calculateConfidenceScore (r : CRow) : Nat :=
  min (emailPtsV r.email + namePtsV r.first_name r.last_name +
    titlePtsV r.title + phonePtsV r.phone) 100

/-- Name/school normalisation of `deduplicate_contacts`:
`fillna('').astype(str).str.lower().str.strip()`. -/
def normFV (v : FVal) : String := pyStrip (pyLower v.fill)

/-- The primary deduplication key. -/
def tripleOf (r : CRow) : String × String × String :=
  (normFV r.first_name, normFV r.last_name, normFV r.school_name)

/-- The `notna & != '' & strip != ''` mask of the secondary pass. -/
def emailPresent (r : CRow) : Bool :=
  !r.email.isna && r.email.fill ≠ "" && pyStrip r.email.fill ≠ ""

/-- `drop_duplicates(keep='first')` by a key. -/
def dedupGo {K : Type} [DecidableEq K] (key : CRow → K) (seen : List K) :
    List CRow → List CRow
  | [] => []
  | r :: rs =>
    if key r ∈ seen then dedupGo key seen rs
    else r :: dedupGo key (key r :: seen) rs

def dedupByKey {K : Type} [DecidableEq K] (key : CRow → K) (l : List CRow) : List CRow :=
  dedupGo key [] l

/-- `sort_values('confidence_score', ascending=False)`. -/
def sortByConfDesc (l : List CRow) : List CRow :=
  sortDescK (fun r => (r.confidence_score : Int)) l

/-- `FinalCompiler.deduplicate_contacts` (step7.py:267-311). -/
def deduplicateContacts (l : List CRow) : List CRow :=
  let l1 := sortByConfDesc l
  let l2 := dedupByKey tripleOf l1
  let withEmail := l2.filter emailPresent
  let noEmail := l2.filter (fun r => !emailPresent r)
  let withEmail2 :=
    if withEmail ≠ [] then dedupByKey (fun r => r.email) (sortByConfDesc withEmail)
    else withEmail
  withEmail2 ++ noEmail

/-- The header of the zero-survivors early exit of `compile_final_csv`
(step7.py:385). -/
def emptyHeaderCols : List String :=
  ["School Name", "First Name", "Last Name", "Title", "Email", "Phone",
   "Confidence Score", "Source URL"]

/-- The header of the populated final CSV (step7.py:402-419): the eight
constructed columns plus the three metadata columns. -/
def fullHeaderCols : List String :=
  ["School Name", "First Name", "Last Name", "Title", "Email", "Phone",
   "Source URL", "Confidence Score", "Date Collected", "Verified", "Notes"]

/-- The email-cleaning `apply` of `compile_final_csv` (step7.py:358). -/
def cleanEmailCell (v : FVal) : FVal :=
  match v with
  | .nanv => .nanv
  | .strv s =>
    if s ≠ "" ∧ pyStrip s ≠ "" then .strv (cleanEmail (.strv s)) else .strv s

/-- The `email_valid` mask (step7.py:363): empty or missing emails pass,
present emails must validate. -/
def emailValidCell (v : FVal) : Bool :=
  match v with
  | .nanv => true
  | .strv s => if pyStrip s = "" then true else isValidEmail (.strv s)

/-- The combined `name` column (step7.py:373) when the input carries
`first_name`/`last_name` columns. -/
def combinedName (r : CRow) : FVal :=
  .strv (pyStrip (r.first_name.fill ++ " " ++ r.last_name.fill))

/-- The validation pipeline of `compile_final_csv` up to the emptiness
test (step7.py:354-382): clean emails, drop rows with present-but-invalid
emails, drop rows with invalid names. -/
def surviveValidation (rows : List CRow) : List CRow :=
  let rows := rows.map (fun r => { r with email := cleanEmailCell r.email })
  let rows := rows.filter (fun r => emailValidCell r.email)
  rows.filter (fun r => isValidName (combinedName r))

/-- The header of the CSV written by `compile_final_csv` for a given
input: the reduced header on the zero-survivors path, the full header
otherwise. -/
def finalCsvHeader (rows : List CRow) : List String :=
  if surviveValidation rows = [] then emptyHeaderCols else fullHeaderCols

/-! ## Helper lemmas: insertion sort, deduplication, heap pop -/

theorem insDescK_perm {α : Type} (key : α → Int) (r : α) (l : List α) :
    List.Perm (insDescK key r l) (r :: l) := by
  induction l with
  | nil => simp [insDescK]
  | cons x xs ih =>
    simp only [insDescK]
    split
    · exact List.Perm.refl _
    · exact (List.Perm.cons x ih).trans (List.Perm.swap r x xs)

theorem mem_insDescK {α : Type} (key : α → Int) (r : α) (l : List α) (b : α) :
    b ∈ insDescK key r l ↔ b = r ∨ b ∈ l := by
  rw [(insDescK_perm key r l).mem_iff]
  simp

theorem insDescK_pairwise {α : Type} (key : α → Int) (r : α) (l : List α)
    (h : l.Pairwise (fun a b => key b ≤ key a)) :
    (insDescK key r l).Pairwise (fun a b => key b ≤ key a) := by
  induction l with
  | nil => simp [insDescK]
  | cons x xs ih =>
    rcases List.pairwise_cons.mp h with ⟨hx, hxs⟩
    simp only [insDescK]
    split
    · rename_i hlt
      refine List.pairwise_cons.mpr ⟨?_, h⟩
      intro b hb
      rcases List.mem_cons.mp hb with hbx | hbxs
      · subst hbx; omega
      · have := hx b hbxs; omega
    · rename_i hge
      refine List.pairwise_cons.mpr ⟨?_, ih hxs⟩
      intro b hb
      rcases (mem_insDescK key r xs b).mp hb with hbr | hbxs
      · subst hbr; omega
      · exact hx b hbxs

theorem sortDescK_aux_perm {α : Type} (key : α → Int) :
    ∀ (l acc : List α), List.Perm (l.foldl (fun a r => insDescK key r a) acc) (acc ++ l) := by
  intro l
  induction l with
  | nil => intro acc; simp
  | cons x xs ih =>
    intro acc
    refine ((ih (insDescK key x acc)).trans ?_)
    exact ((insDescK_perm key x acc).append_right xs).trans List.perm_middle.symm

theorem sortDescK_perm {α : Type} (key : α → Int) (l : List α) :
    List.Perm (sortDescK key l) l := by
  simpa using sortDescK_aux_perm key l []

theorem mem_sortDescK {α : Type} (key : α → Int) (l : List α) (b : α) :
    b ∈ sortDescK key l ↔ b ∈ l := (sortDescK_perm key l).mem_iff

theorem length_sortDescK {α : Type} (key : α → Int) (l : List α) :
    (sortDescK key l).length = l.length := (sortDescK_perm key l).length_eq

theorem sortDescK_pairwise {α : Type} (key : α → Int) (l : List α) :
    (sortDescK key l).Pairwise (fun a b => key b ≤ key a) := by
  have aux : ∀ (l acc : List α), acc.Pairwise (fun a b => key b ≤ key a) →
      (l.foldl (fun a r => insDescK key r a) acc).Pairwise (fun a b => key b ≤ key a) := by
    intro l
    induction l with
    | nil => intro acc h; simpa using h
    | cons x xs ih => intro acc h; exact ih _ (insDescK_pairwise key x acc h)
  simpa [sortDescK] using aux l [] (by simp)

theorem minFEntry_mem (es : List FEntry) : ∀ e, minFEntry e es ∈ e :: es := by
  induction es with
  | nil => intro e; simp [minFEntry]
  | cons f fs ih =>
    intro e
    simp only [minFEntry]
    have h := ih (if entryLtB f e then f else e)
    rcases List.mem_cons.mp h with h1 | h2
    · rw [h1]
      split <;> simp
    · simp [h2]

theorem popMin_mem {l : List FEntry} {e : FEntry} {rest : List FEntry}
    (h : popMin l = some (e, rest)) : e ∈ l := by
  match l with
  | [] => simp [popMin] at h
  | x :: xs =>
    simp only [popMin, Option.some.injEq, Prod.mk.injEq] at h
    have := minFEntry_mem xs x
    rw [h.1] at this
    exact this

theorem popMin_rest {l : List FEntry} {e : FEntry} {rest : List FEntry}
    (h : popMin l = some (e, rest)) : rest = l.erase e := by
  match l with
  | [] => simp [popMin] at h
  | x :: xs =>
    simp only [popMin, Option.some.injEq, Prod.mk.injEq] at h
    rw [← h.1, ← h.2]

theorem popMin_rest_subset {l : List FEntry} {e : FEntry} {rest : List FEntry}
    (h : popMin l = some (e, rest)) : rest ⊆ l := by
  rw [popMin_rest h]
  exact fun x hx => List.mem_of_mem_erase hx

theorem popMin_rest_length {l : List FEntry} {e : FEntry} {rest : List FEntry}
    (h : popMin l = some (e, rest)) : rest.length + 1 = l.length := by
  rw [popMin_rest h]
  have hm := popMin_mem h
  have := List.length_erase_of_mem hm
  have : (l.erase e).length = l.length - 1 := this
  have hpos : 0 < l.length := List.length_pos.mpr (List.ne_nil_of_mem hm)
  omega

theorem popMin_none {l : List FEntry} (h : popMin l = none) : l = [] := by
  match l with
  | [] => rfl
  | x :: xs => simp [popMin] at h

/-- Membership in a fold of conditional pushes. -/
theorem mem_foldl_pushes {β : Type} (g : β → FEntry) (p : β → Prop) [DecidablePred p]
    (l : List β) (e : FEntry) :
    ∀ acc, e ∈ (l.foldl (fun acc lp => if p lp then acc ++ [g lp] else acc) acc) →
      e ∈ acc ∨ ∃ lp ∈ l, e = g lp := by
  induction l with
  | nil => intro acc h; exact Or.inl h
  | cons x xs ih =>
    intro acc h
    rcases ih _ h with hacc | ⟨lp, hlp, hg⟩
    · by_cases hp : p x
      · simp only [if_pos hp] at hacc
        rcases List.mem_append.mp hacc with h1 | h2
        · exact Or.inl h1
        · exact Or.inr ⟨x, by simp, by simpa using h2⟩
      · simp only [if_neg hp] at hacc
        exact Or.inl hacc
    · exact Or.inr ⟨lp, by simp [hlp], hg⟩

theorem length_foldl_pushes {β : Type} (g : β → FEntry) (p : β → Prop) [DecidablePred p]
    (l : List β) :
    ∀ acc, (l.foldl (fun acc lp => if p lp then acc ++ [g lp] else acc) acc).length ≤
      acc.length + l.length := by
  induction l with
  | nil => intro acc; simp
  | cons x xs ih =>
    intro acc
    rw [List.foldl_cons]
    by_cases hp : p x
    · simp only [if_pos hp]
      have := ih (acc ++ [g x])
      simp at this ⊢
      omega
    · simp only [if_neg hp]
      have := ih acc
      simp only [List.length_cons] at this ⊢
      omega

theorem mem_stepPushes {cfg : CrawlCfg} {vis : Finset String} {plen depth : Nat}
    {pd : PageData} {e : FEntry} (h : e ∈ stepPushes cfg vis plen depth pd) :
    ∃ l, l ∈ extractLinks cfg.baseUrl pd.hrefs ∧
      e = (-(scorePagePriority l), depth + 1, l) := by
  simp only [stepPushes] at h
  rcases mem_foldl_pushes _ _ _ e [] h with hacc | ⟨lp, hlp, hg⟩
  · simp at hacc
  · have h1 : lp ∈ sortDescK (fun x => x.2)
        (((extractLinks cfg.baseUrl pd.hrefs).filter (fun l => decide (l ∉ vis))).map
          (fun l => (l, scorePagePriority l))) := List.mem_of_mem_take hlp
    rw [mem_sortDescK] at h1
    rcases List.mem_map.mp h1 with ⟨l, hlmem, hlp2⟩
    refine ⟨l, List.mem_of_mem_filter hlmem, ?_⟩
    rw [hg, ← hlp2]

theorem length_stepPushes (cfg : CrawlCfg) (vis : Finset String) (plen depth : Nat)
    (pd : PageData) : (stepPushes cfg vis plen depth pd).length ≤ 75 := by
  simp only [stepPushes]
  have h := length_foldl_pushes
    (fun lp : String × Int => (-lp.2, depth + 1, lp.1))
    (fun lp : String × Int => lp.1 ∉ vis ∧ plen < cfg.maxPages)
    ((sortDescK (fun x => x.2)
      (((extractLinks cfg.baseUrl pd.hrefs).filter (fun l => decide (l ∉ vis))).map
        (fun l => (l, scorePagePriority l)))).take 75) []
  have hlen : ((sortDescK (fun x => x.2)
      (((extractLinks cfg.baseUrl pd.hrefs).filter (fun l => decide (l ∉ vis))).map
        (fun l => (l, scorePagePriority l)))).take 75).length ≤ 75 := by
    simp [List.length_take]
  simp only [List.length_nil] at h
  omega

/-! ## Case analyses of one crawl step -/

theorem crawlStep_next_cases (cfg : CrawlCfg) (s s' : CrawlState)
    (h : crawlStep cfg s = .next s') :
    (∃ e rest, popMin s.frontier = some (e, rest) ∧ s' = { s with frontier := rest })
  ∨ (∃ negP depth url rest,
      popMin s.frontier = some ((negP, depth, url), rest) ∧
      url ∉ s.visited ∧ depth ≤ cfg.maxDepth ∧ s.staffFound < 3 ∧
      s.pages.length < cfg.maxPages ∧ ¬(-negP ≤ 0 ∧ 0 < depth) ∧
      cfg.fetch url = none ∧ s' = fetchedState s url depth rest)
  ∨ (∃ negP depth url rest pd,
      popMin s.frontier = some ((negP, depth, url), rest) ∧
      url ∉ s.visited ∧ depth ≤ cfg.maxDepth ∧ s.staffFound < 3 ∧
      s.pages.length < cfg.maxPages ∧ ¬(-negP ≤ 0 ∧ 0 < depth) ∧
      cfg.fetch url = some pd ∧ staffBump s.staffFound url < 3 ∧
      ((s' = { fetchedState s url depth rest with
               frontier := rest ++ stepPushes cfg (insert url s.visited)
                 (s.pages ++ [pageOf url pd depth]).length depth pd,
               pages := s.pages ++ [pageOf url pd depth],
               staffFound := staffBump s.staffFound url })
       ∨ (s' = { fetchedState s url depth rest with
               pages := s.pages ++ [pageOf url pd depth],
               staffFound := staffBump s.staffFound url }))) := by
  unfold crawlStep at h
  split at h
  · simp at h
  · split at h
    · simp at h
    · rename_i negP depth url rest hpop
      split at h
      · injection h with h
        exact Or.inl ⟨(negP, depth, url), rest, hpop, h.symm⟩
      · rename_i hskip
        push_neg at hskip
        split at h
        · simp at h
        · rename_i hstaff
          split at h
          · simp at h
          · rename_i hpagecap
            split at h
            · injection h with h
              exact Or.inl ⟨(negP, depth, url), rest, hpop, h.symm⟩
            · rename_i hprio
              split at h
              · rename_i hfetch
                injection h with h
                exact Or.inr (Or.inl ⟨negP, depth, url, rest, hpop, hskip.1,
                  by omega, by omega, by omega, hprio, hfetch, h.symm⟩)
              · rename_i pd hfetch
                split at h
                · simp at h
                · rename_i hstaffcap
                  split at h
                  · injection h with h
                    exact Or.inr (Or.inr ⟨negP, depth, url, rest, pd, hpop, hskip.1,
                      by omega, by omega, by omega, hprio, hfetch, by omega,
                      Or.inl h.symm⟩)
                  · injection h with h
                    exact Or.inr (Or.inr ⟨negP, depth, url, rest, pd, hpop, hskip.1,
                      by omega, by omega, by omega, hprio, hfetch, by omega,
                      Or.inr h.symm⟩)

theorem crawlStep_done_cases (cfg : CrawlCfg) (s : CrawlState) (r : CrawlResult)
    (h : crawlStep cfg s = .done r) :
    r = finishRun s
  ∨ (∃ negP depth url rest pd,
      popMin s.frontier = some ((negP, depth, url), rest) ∧
      url ∉ s.visited ∧ depth ≤ cfg.maxDepth ∧ s.staffFound < 3 ∧
      s.pages.length < cfg.maxPages ∧ ¬(-negP ≤ 0 ∧ 0 < depth) ∧
      cfg.fetch url = some pd ∧ 3 ≤ staffBump s.staffFound url ∧
      r = finishRun { fetchedState s url depth rest with
            pages := s.pages ++ [pageOf url pd depth],
            staffFound := staffBump s.staffFound url }) := by
  unfold crawlStep at h
  split at h
  · injection h with h
    exact Or.inl h.symm
  · split at h
    · injection h with h
      exact Or.inl h.symm
    · rename_i negP depth url rest hpop
      split at h
      · simp at h
      · rename_i hskip
        push_neg at hskip
        split at h
        · injection h with h
          exact Or.inl h.symm
        · rename_i hstaff
          split at h
          · injection h with h
            exact Or.inl h.symm
          · rename_i hpagecap
            split at h
            · simp at h
            · rename_i hprio
              split at h
              · simp at h
              · rename_i pd hfetch
                split at h
                · rename_i hstaffcap
                  injection h with h
                  exact Or.inr ⟨negP, depth, url, rest, pd, hpop, hskip.1,
                    by omega, by omega, by omega, hprio, hfetch, hstaffcap, h.symm⟩
                · split at h <;> simp at h

/-! ## Loop-level helper lemmas -/

/-- Invariant propagation through the crawl loop. -/
theorem crawlLoop_inv {cfg : CrawlCfg} {P : CrawlState → Prop} {Q : CrawlResult → Prop}
    (hnext : ∀ s s', P s → crawlStep cfg s = .next s' → P s')
    (hdone : ∀ s r, P s → crawlStep cfg s = .done r → Q r) :
    ∀ fuel s r, P s → crawlLoop cfg fuel s = some r → Q r := by
  intro fuel
  induction fuel with
  | zero => intro s r _ h; simp [crawlLoop] at h
  | succ n ih =>
    intro s r hP h
    simp only [crawlLoop] at h
    cases hstep : crawlStep cfg s with
    | done r' =>
      rw [hstep] at h
      simp only [Option.some.injEq] at h
      rw [← h]
      exact hdone s r' hP hstep
    | next s' =>
      rw [hstep] at h
      exact ih s' r (hnext s s' hP hstep) h

theorem finishPages_length_le_three (pages : List PageInfo) :
    (finishPages pages).length ≤ 3 := by
  simp [finishPages, List.length_take]

theorem finishPages_length_le (pages : List PageInfo) :
    (finishPages pages).length ≤ pages.length := by
  have h1 := List.length_take_le 3
    ((sortDescK (fun p => p.score) pages).filter (fun p => decide (0 < p.score)))
  have h2 := List.length_filter_le (fun p => decide (0 < p.score))
    (sortDescK (fun p => p.score) pages)
  have h3 := length_sortDescK (fun p : PageInfo => p.score) pages
  simp only [finishPages, List.length_take]
  omega

theorem mem_finishPages {p : PageInfo} {pages : List PageInfo}
    (h : p ∈ finishPages pages) : p ∈ pages := by
  have h1 : p ∈ (sortDescK (fun p => p.score) pages).filter (fun p => decide (0 < p.score)) :=
    List.mem_of_mem_take h
  have h2 := List.mem_of_mem_filter h1
  exact (mem_sortDescK _ _ _).mp h2

theorem mem_finishPages_pos {p : PageInfo} {pages : List PageInfo}
    (h : p ∈ finishPages pages) : 0 < p.score := by
  have h1 : p ∈ (sortDescK (fun p => p.score) pages).filter (fun p => decide (0 < p.score)) :=
    List.mem_of_mem_take h
  simpa using List.of_mem_filter h1

/-- A fetch-log entry of a state survives into the final result. -/
theorem crawlLoop_log_mono {cfg : CrawlCfg} :
    ∀ fuel s r, crawlLoop cfg fuel s = some r → ∀ x ∈ s.fetchLog, x ∈ r.fetchLog := by
  intro fuel s r h x hx
  refine crawlLoop_inv (P := fun s => x ∈ s.fetchLog) (Q := fun r => x ∈ r.fetchLog)
    ?_ ?_ fuel s r hx h
  · intro s s' hP hstep
    rcases crawlStep_next_cases cfg s s' hstep with ⟨e, rest, _, h1⟩ |
      ⟨nP, d, u, rest, _, _, _, _, _, _, _, h1⟩ |
      ⟨nP, d, u, rest, pd, _, _, _, _, _, _, _, _, h1 | h1⟩ <;> subst h1
    · exact hP
    · simp only [fetchedState, List.mem_append]
      exact Or.inl hP
    · simp only [fetchedState, List.mem_append]
      exact Or.inl hP
    · simp only [fetchedState, List.mem_append]
      exact Or.inl hP
  · intro s r hP hstep
    rcases crawlStep_done_cases cfg s r hstep with h1 |
      ⟨nP, d, u, rest, pd, _, _, _, _, _, _, _, _, h1⟩ <;> subst h1
    · exact hP
    · simp only [finishRun, fetchedState, List.mem_append]
      exact Or.inl hP

/-! ## Termination measure (claim C1) -/

/-- Crawl-state invariant relative to a URL universe `U`. -/
def crawlInv (U : Finset String) (s : CrawlState) : Prop :=
  (∀ e ∈ s.frontier, e.2.2 ∈ U) ∧ s.visited ⊆ U

/-- `U` is a finite universe closed under link extraction: the homepage
is in `U`, and every link extracted from any fetchable page is in `U`.
For a finite website graph such a `U` always exists. -/
def fetchClosed (cfg : CrawlCfg) (U : Finset String) : Prop :=
  cfg.baseUrl ∈ U ∧
  ∀ u pd, cfg.fetch u = some pd → ∀ l ∈ extractLinks cfg.baseUrl pd.hrefs, l ∈ U

/-- Decreasing measure: 76 per unvisited universe URL plus the frontier
length (each fetch removes one frontier entry, visits one new URL and
pushes at most 75 links; each skip removes one frontier entry). -/
def crawlMeasure (U : Finset String) (s : CrawlState) : Nat :=
  76 * (U.card - s.visited.card) + s.frontier.length

theorem crawlStep_next_measure {cfg : CrawlCfg} {U : Finset String} {s s' : CrawlState}
    (hcl : fetchClosed cfg U) (hinv : crawlInv U s)
    (h : crawlStep cfg s = .next s') :
    crawlInv U s' ∧ crawlMeasure U s' < crawlMeasure U s := by
  obtain ⟨hfr, hvis⟩ := hinv
  rcases crawlStep_next_cases cfg s s' h with
    ⟨e, rest, hpop, h1⟩ |
    ⟨nP, d, u, rest, hpop, hu, _, _, _, _, hfetch, h1⟩ |
    ⟨nP, d, u, rest, pd, hpop, hu, _, _, _, _, hfetch, _, h1 | h1⟩
  · subst h1
    have hlen := popMin_rest_length hpop
    have hsub := popMin_rest_subset hpop
    refine ⟨⟨fun e he => hfr e (hsub he), hvis⟩, ?_⟩
    simp only [crawlMeasure]
    omega
  · subst h1
    have hlen := popMin_rest_length hpop
    have hsub := popMin_rest_subset hpop
    have humem : u ∈ U := hfr _ (popMin_mem hpop)
    have hins : insert u s.visited ⊆ U := Finset.insert_subset humem hvis
    have hcard : (insert u s.visited).card = s.visited.card + 1 :=
      Finset.card_insert_of_not_mem hu
    have hle : (insert u s.visited).card ≤ U.card := Finset.card_le_card hins
    refine ⟨⟨fun e he => hfr e (hsub he), hins⟩, ?_⟩
    simp only [crawlMeasure, fetchedState, hcard]
    omega
  · subst h1
    have hlen := popMin_rest_length hpop
    have hsub := popMin_rest_subset hpop
    have humem : u ∈ U := hfr _ (popMin_mem hpop)
    have hins : insert u s.visited ⊆ U := Finset.insert_subset humem hvis
    have hcard : (insert u s.visited).card = s.visited.card + 1 :=
      Finset.card_insert_of_not_mem hu
    have hle : (insert u s.visited).card ≤ U.card := Finset.card_le_card hins
    have hpush := length_stepPushes cfg (insert u s.visited)
      (s.pages ++ [pageOf u pd d]).length d pd
    constructor
    · refine ⟨?_, hins⟩
      intro e he
      simp only [fetchedState, List.mem_append] at he
      rcases he with he | he
      · exact hfr e (hsub he)
      · rcases mem_stepPushes he with ⟨l, hl, rfl⟩
        exact hcl.2 u pd hfetch l hl
    · simp only [crawlMeasure, fetchedState, List.length_append, hcard] at hpush ⊢
      omega
  · subst h1
    have hlen := popMin_rest_length hpop
    have hsub := popMin_rest_subset hpop
    have humem : u ∈ U := hfr _ (popMin_mem hpop)
    have hins : insert u s.visited ⊆ U := Finset.insert_subset humem hvis
    have hcard : (insert u s.visited).card = s.visited.card + 1 :=
      Finset.card_insert_of_not_mem hu
    have hle : (insert u s.visited).card ≤ U.card := Finset.card_le_card hins
    refine ⟨⟨fun e he => hfr e (hsub he), hins⟩, ?_⟩
    simp only [crawlMeasure, fetchedState, hcard]
    omega

theorem crawlLoop_terminates {cfg : CrawlCfg} {U : Finset String}
    (hcl : fetchClosed cfg U) :
    ∀ fuel s, crawlInv U s → crawlMeasure U s < fuel → (crawlLoop cfg fuel s).isSome := by
  intro fuel
  induction fuel with
  | zero => intro s _ hm; omega
  | succ n ih =>
    intro s hinv hm
    simp only [crawlLoop]
    cases hstep : crawlStep cfg s with
    | done r => simp
    | next s' =>
      obtain ⟨hinv', hlt⟩ := crawlStep_next_measure hcl hinv hstep
      exact ih s' hinv' (by omega)

/-- The first loop iteration attempts to fetch the homepage whenever the
page cap is positive, whatever the fetch outcome. -/
theorem crawlStep_init_log (cfg : CrawlCfg) (hmax : 1 ≤ cfg.maxPages) :
    (∃ s', crawlStep cfg (initState cfg) = .next s' ∧ (cfg.baseUrl, 0) ∈ s'.fetchLog)
  ∨ (∃ r, crawlStep cfg (initState cfg) = .done r ∧ (cfg.baseUrl, 0) ∈ r.fetchLog) := by
  have hpop : popMin [((0 : Int), (0 : Nat), cfg.baseUrl)] =
      some (((0 : Int), (0 : Nat), cfg.baseUrl), []) := by
    simp [popMin, minFEntry]
  have hsb : ¬ 3 ≤ staffBump 0 cfg.baseUrl := by
    simp only [staffBump]
    split <;> omega
  unfold crawlStep
  simp only [initState]
  rw [if_neg (by simp; omega)]
  rw [hpop]
  dsimp only
  rw [if_neg (by simp)]
  rw [if_neg (by omega)]
  rw [if_neg (by simp; omega)]
  rw [if_neg (by simp)]
  cases hf : cfg.fetch cfg.baseUrl with
  | none =>
    dsimp only
    refine Or.inl ⟨_, rfl, ?_⟩
    simp [fetchedState]
  | some pd =>
    dsimp only
    rw [if_neg hsb]
    split
    · refine Or.inl ⟨_, rfl, ?_⟩
      simp [fetchedState]
    · refine Or.inl ⟨_, rfl, ?_⟩
      simp [fetchedState]

/-! ## Claim theorems -/

/-- C1: for every finite website graph (witnessed by a finite URL
universe `U` containing the homepage and closed under link extraction
from fetchable pages) and every `max_depth`/`max_pages_per_school`,
`discover_pages` terminates: fuel beyond the measure `76 * |U| + 1`
suffices for the crawl loop to exit.  Moreover a URL is fetched at most
once (the fetch-log URLs are distinct, because a URL enters `visited`
before it is fetched), and each fetch pushes at most 75 extracted links
onto the frontier. -/
theorem C1_crawler_termination :
    (∀ (cfg : CrawlCfg) (U : Finset String), fetchClosed cfg U →
      ∀ fuel, 76 * U.card + 1 < fuel → (discoverPages cfg fuel).isSome)
  ∧ (∀ (cfg : CrawlCfg) (fuel : Nat) (r : CrawlResult), discoverPages cfg fuel = some r →
      (r.fetchLog.map Prod.fst).Nodup)
  ∧ (∀ (cfg : CrawlCfg) (vis : Finset String) (plen depth : Nat) (pd : PageData),
      (stepPushes cfg vis plen depth pd).length ≤ 75) := by
  refine ⟨?_, ?_, ?_⟩
  · intro cfg U hcl fuel hf
    unfold discoverPages
    split
    · simp
    · apply crawlLoop_terminates hcl fuel
      · refine ⟨?_, Finset.empty_subset U⟩
        intro e he
        simp only [initState, List.mem_singleton] at he
        subst he
        exact hcl.1
      · simp only [crawlMeasure, initState, Finset.card_empty, Nat.sub_zero,
          List.length_singleton]
        omega
  · intro cfg fuel r h
    unfold discoverPages at h
    split at h
    · simp only [Option.some.injEq] at h
      rw [← h]
      simp
    · refine crawlLoop_inv
        (P := fun s => (s.fetchLog.map Prod.fst).Nodup ∧ ∀ x ∈ s.fetchLog, x.1 ∈ s.visited)
        (Q := fun r => (r.fetchLog.map Prod.fst).Nodup) ?_ ?_ fuel _ r ?_ h
      · intro s s' hP hstep
        rcases crawlStep_next_cases cfg s s' hstep with ⟨e, rest, _, h1⟩ |
          ⟨nP, d, u, rest, _, hu, _, _, _, _, _, h1⟩ |
          ⟨nP, d, u, rest, pd, _, hu, _, _, _, _, _, _, h1 | h1⟩ <;> subst h1
        · exact hP
        all_goals {
          refine ⟨?_, ?_⟩
          · simp only [fetchedState, List.map_append, List.map_cons, List.map_nil]
            rw [List.nodup_append]
            refine ⟨hP.1, by simp, ?_⟩
            intro a ha hb
            simp only [List.mem_singleton] at hb
            subst hb
            rcases List.mem_map.mp ha with ⟨x, hx, hfst⟩
            exact hu (hfst ▸ hP.2 x hx)
          · intro x hx
            simp only [fetchedState, List.mem_append, List.mem_singleton] at hx
            rcases hx with hx | hx
            · exact Finset.mem_insert_of_mem (hP.2 x hx)
            · subst hx
              exact Finset.mem_insert_self _ _ }
      · intro s r hP hstep
        rcases crawlStep_done_cases cfg s r hstep with h1 |
          ⟨nP, d, u, rest, pd, _, hu, _, _, _, _, _, _, h1⟩ <;> subst h1
        · exact hP.1
        · simp only [finishRun, fetchedState, List.map_append, List.map_cons, List.map_nil]
          rw [List.nodup_append]
          refine ⟨hP.1, by simp, ?_⟩
          intro a ha hb
          simp only [List.mem_singleton] at hb
          subst hb
          rcases List.mem_map.mp ha with ⟨x, hx, hfst⟩
          exact hu (hfst ▸ hP.2 x hx)
      · simp [initState]
  · intro cfg vis plen depth pd
    exact length_stepPushes cfg vis plen depth pd

/-- C6: the list returned by `discover_pages` never exceeds
`max_pages_per_school` entries and, after the final sort-by-score and
truncation, never exceeds 3 entries. -/
theorem C6_result_caps (cfg : CrawlCfg) (fuel : Nat) (r : CrawlResult)
    (h : discoverPages cfg fuel = some r) :
    r.pages.length ≤ 3 ∧ r.pages.length ≤ cfg.maxPages := by
  unfold discoverPages at h
  split at h
  · simp only [Option.some.injEq] at h
    rw [← h]
    simp
  · refine crawlLoop_inv
      (P := fun s => s.pages.length ≤ cfg.maxPages)
      (Q := fun r => r.pages.length ≤ 3 ∧ r.pages.length ≤ cfg.maxPages) ?_ ?_ fuel _ r ?_ h
    · intro s s' hP hstep
      rcases crawlStep_next_cases cfg s s' hstep with ⟨e, rest, _, h1⟩ |
        ⟨nP, d, u, rest, _, _, _, _, hpg, _, _, h1⟩ |
        ⟨nP, d, u, rest, pd, _, _, _, _, hpg, _, _, _, h1 | h1⟩ <;> subst h1
      · exact hP
      · exact hP
      all_goals simp only [fetchedState, List.length_append, List.length_singleton]; omega
    · intro s r hP hstep
      rcases crawlStep_done_cases cfg s r hstep with h1 |
        ⟨nP, d, u, rest, pd, _, _, _, _, hpg, _, _, _, h1⟩ <;> subst h1
      · have h3 := finishPages_length_le_three s.pages
        have h4 := finishPages_length_le s.pages
        exact ⟨h3, by simp only [finishRun]; omega⟩
      · have h3 := finishPages_length_le_three
          (s.pages ++ [pageOf u pd d])
        have h4 := finishPages_length_le (s.pages ++ [pageOf u pd d])
        simp only [List.length_append, List.length_singleton] at h4
        exact ⟨h3, by simp only [finishRun]; omega⟩
    · simp [initState]

/-- C4: once the counter of fetched staff-keyword pages reaches its cap
of 3, the crawl stops at once.  First conjunct: from any loop state with
`staffFound ≥ 3`, the loop performs no further fetch and records no
further page — the result carries exactly the state's fetch log and its
pages (post-processed).  Second conjunct: a step never continues past a
newly reached cap — if an iteration hands `staffFound ≥ 3` to the next
iteration, the counter was already at the cap before it. -/
theorem C4_staff_cap_stops_crawl :
    (∀ (cfg : CrawlCfg) (fuel : Nat) (s : CrawlState) (r : CrawlResult),
      3 ≤ s.staffFound → crawlLoop cfg fuel s = some r →
      r.fetchLog = s.fetchLog ∧ r.pages = finishPages s.pages)
  ∧ (∀ (cfg : CrawlCfg) (s s' : CrawlState),
      crawlStep cfg s = .next s' → 3 ≤ s'.staffFound → 3 ≤ s.staffFound) := by
  constructor
  · intro cfg fuel s0 r h3 h
    refine crawlLoop_inv
      (P := fun s => 3 ≤ s.staffFound ∧ s.fetchLog = s0.fetchLog ∧ s.pages = s0.pages)
      (Q := fun r => r.fetchLog = s0.fetchLog ∧ r.pages = finishPages s0.pages)
      ?_ ?_ fuel s0 r ⟨h3, rfl, rfl⟩ h
    · intro s s' hP hstep
      rcases crawlStep_next_cases cfg s s' hstep with ⟨e, rest, _, h1⟩ |
        ⟨nP, d, u, rest, _, _, _, hst, _, _, _, h1⟩ |
        ⟨nP, d, u, rest, pd, _, _, _, hst, _, _, _, _, h1 | h1⟩
      · subst h1; exact hP
      · omega
      · omega
      · omega
    · intro s r hP hstep
      rcases crawlStep_done_cases cfg s r hstep with h1 |
        ⟨nP, d, u, rest, pd, _, _, _, hst, _, _, _, _, h1⟩
      · subst h1
        constructor
        · simp only [finishRun]
          exact hP.2.1
        · simp only [finishRun]
          rw [hP.2.2]
      · omega
  · intro cfg s s' hstep h3
    rcases crawlStep_next_cases cfg s s' hstep with ⟨e, rest, _, h1⟩ |
      ⟨nP, d, u, rest, _, _, _, _, _, _, _, h1⟩ |
      ⟨nP, d, u, rest, pd, _, _, _, _, _, _, _, hcap, h1 | h1⟩ <;> subst h1
    · exact h3
    · exact h3
    · simp only at h3; omega
    · simp only at h3; omega

/-- Pre-fetch score invariant: every frontier entry pushed at positive
depth carries minus its URL score as heap priority. -/
def frontierScored (s : CrawlState) : Prop :=
  ∀ e ∈ s.frontier, 0 < e.2.1 → e.1 = -(scorePagePriority e.2.2)

/-- C3: a URL whose lowercase form contains a forced-zero keyword scores
exactly 0; consequently during a crawl no such URL is ever fetched at
depth > 0 and no such URL appears at depth > 0 in the returned result
list, while the homepage is fetched (whenever the page cap allows any
page at all) even if it contains such a keyword. -/
theorem C3_zero_priority_pruning :
    (∀ url : String, hasZeroKeyword url = true → scorePagePriority url = 0)
  ∧ (∀ (cfg : CrawlCfg) (fuel : Nat) (r : CrawlResult), discoverPages cfg fuel = some r →
      (∀ x ∈ r.fetchLog, 0 < x.2 → hasZeroKeyword x.1 = false) ∧
      (∀ p ∈ r.pages, 0 < p.depth → hasZeroKeyword p.url = false))
  ∧ (∀ (cfg : CrawlCfg) (fuel : Nat) (r : CrawlResult), cfg.baseUrl ≠ "" →
      1 ≤ cfg.maxPages → discoverPages cfg fuel = some r →
      (cfg.baseUrl, 0) ∈ r.fetchLog) := by
  have hzero : ∀ url : String, hasZeroKeyword url = true → scorePagePriority url = 0 := by
    intro url h
    simp [scorePagePriority, h]
  refine ⟨hzero, ?_, ?_⟩
  · intro cfg fuel r h
    unfold discoverPages at h
    split at h
    · simp only [Option.some.injEq] at h
      rw [← h]
      constructor <;> simp
    · have key := crawlLoop_inv
        (P := fun s => frontierScored s ∧
          (∀ x ∈ s.fetchLog, 0 < x.2 → hasZeroKeyword x.1 = false) ∧
          (∀ p ∈ s.pages, 0 < p.depth → hasZeroKeyword p.url = false))
        (Q := fun r => (∀ x ∈ r.fetchLog, 0 < x.2 → hasZeroKeyword x.1 = false) ∧
          (∀ p ∈ r.pages, 0 < p.depth → hasZeroKeyword p.url = false))
        ?_ ?_ fuel _ r ?_ h
      · exact key
      · intro s s' hP hstep
        obtain ⟨hfs, hlog, hpgs⟩ := hP
        have hnewfetch : ∀ (nP : Int) (d : Nat) (u : String) rest,
            popMin s.frontier = some ((nP, d, u), rest) → ¬(-nP ≤ 0 ∧ 0 < d) →
            0 < d → hasZeroKeyword u = false := by
          intro nP d u rest hpop hprio hd
          by_contra hzk
          simp only [Bool.not_eq_false] at hzk
          have hsc := hzero u hzk
          have hent := hfs _ (popMin_mem hpop) hd
          simp only at hent
          rw [hsc] at hent
          omega
        rcases crawlStep_next_cases cfg s s' hstep with ⟨e, rest, hpop, h1⟩ |
          ⟨nP, d, u, rest, hpop, _, _, _, _, hprio, _, h1⟩ |
          ⟨nP, d, u, rest, pd, hpop, _, _, _, _, hprio, _, _, h1 | h1⟩ <;> subst h1
        · exact ⟨fun e he => hfs e (popMin_rest_subset hpop he), hlog, hpgs⟩
        · refine ⟨fun e he => hfs e (popMin_rest_subset hpop he), ?_, hpgs⟩
          intro x hx
          simp only [fetchedState, List.mem_append, List.mem_singleton] at hx
          rcases hx with hx | hx
          · exact hlog x hx
          · subst hx
            exact hnewfetch nP d u rest hpop hprio
        · refine ⟨?_, ?_, ?_⟩
          · intro e he
            simp only [fetchedState, List.mem_append] at he
            rcases he with he | he
            · exact hfs e (popMin_rest_subset hpop he)
            · rcases mem_stepPushes he with ⟨l, _, rfl⟩
              intro _
              rfl
          · intro x hx
            simp only [fetchedState, List.mem_append, List.mem_singleton] at hx
            rcases hx with hx | hx
            · exact hlog x hx
            · subst hx
              exact hnewfetch nP d u rest hpop hprio
          · intro p hp
            simp only [fetchedState, List.mem_append, List.mem_singleton] at hp
            rcases hp with hp | hp
            · exact hpgs p hp
            · subst hp
              exact hnewfetch nP d u rest hpop hprio
        · refine ⟨fun e he => hfs e (popMin_rest_subset hpop he), ?_, ?_⟩
          · intro x hx
            simp only [fetchedState, List.mem_append, List.mem_singleton] at hx
            rcases hx with hx | hx
            · exact hlog x hx
            · subst hx
              exact hnewfetch nP d u rest hpop hprio
          · intro p hp
            simp only [fetchedState, List.mem_append, List.mem_singleton] at hp
            rcases hp with hp | hp
            · exact hpgs p hp
            · subst hp
              exact hnewfetch nP d u rest hpop hprio
      · intro s r hP hstep
        obtain ⟨hfs, hlog, hpgs⟩ := hP
        have hnewfetch : ∀ (nP : Int) (d : Nat) (u : String) rest,
            popMin s.frontier = some ((nP, d, u), rest) → ¬(-nP ≤ 0 ∧ 0 < d) →
            0 < d → hasZeroKeyword u = false := by
          intro nP d u rest hpop hprio hd
          by_contra hzk
          simp only [Bool.not_eq_false] at hzk
          have hsc := hzero u hzk
          have hent := hfs _ (popMin_mem hpop) hd
          simp only at hent
          rw [hsc] at hent
          omega
        rcases crawlStep_done_cases cfg s r hstep with h1 |
          ⟨nP, d, u, rest, pd, hpop, _, _, _, _, hprio, _, _, h1⟩ <;> subst h1
        · exact ⟨hlog, fun p hp => hpgs p (mem_finishPages hp)⟩
        · constructor
          · intro x hx
            simp only [finishRun, fetchedState, List.mem_append, List.mem_singleton] at hx
            rcases hx with hx | hx
            · exact hlog x hx
            · subst hx
              exact hnewfetch nP d u rest hpop hprio
          · intro p hp
            have hp2 := mem_finishPages hp
            simp only [List.mem_append, List.mem_singleton] at hp2
            rcases hp2 with hp2 | hp2
            · exact hpgs p hp2
            · subst hp2
              exact hnewfetch nP d u rest hpop hprio
      · refine ⟨?_, by simp [initState], by simp [initState]⟩
        intro e he
        simp only [initState, List.mem_singleton] at he
        subst he
        intro hd
        simp at hd
  · intro cfg fuel r hbase hmax h
    unfold discoverPages at h
    rw [if_neg hbase] at h
    match fuel with
    | 0 => simp [crawlLoop] at h
    | fuel + 1 =>
      simp only [crawlLoop] at h
      rcases crawlStep_init_log cfg hmax with ⟨s', hstep, hmem⟩ | ⟨r0, hstep, hmem⟩
      · rw [hstep] at h
        exact crawlLoop_log_mono fuel s' r h _ hmem
      · rw [hstep] at h
        simp only [Option.some.injEq] at h
        rw [← h]
        exact hmem

/-! ## Claim C5: link resolution -/

theorem mem_foldl_insertNew {l : List String} {x : String} :
    ∀ acc, x ∈ l.foldl insertNew acc → x ∈ acc ∨ x ∈ l := by
  induction l with
  | nil => intro acc h; exact Or.inl h
  | cons a as ih =>
    intro acc h
    rcases ih (insertNew acc a) h with h1 | h1
    · simp only [insertNew] at h1
      split at h1
      · exact Or.inl h1
      · rcases List.mem_append.mp h1 with h2 | h2
        · exact Or.inl h2
        · simp only [List.mem_singleton] at h2
          exact Or.inr (by simp [h2])
    · exact Or.inr (by simp [h1])

theorem linkOf_some {base href l : String} (h : linkOf base href = some l) :
    (urlsplit (urljoin base href)).netloc = (urlsplit base).netloc ∧
    l = cleanUrlOf (urlsplit (urljoin base href)) := by
  unfold linkOf at h
  dsimp only at h
  split at h
  · split at h
    · simp at h
    · rename_i hnet _
      simp only [Option.some.injEq] at h
      exact ⟨hnet, h.symm⟩
  · simp at h

theorem mem_extractLinks {base : String} {hrefs : List String} {l : String}
    (h : l ∈ extractLinks base hrefs) :
    ∃ href ∈ hrefs, (urlsplit (urljoin base href)).netloc = (urlsplit base).netloc ∧
      l = cleanUrlOf (urlsplit (urljoin base href)) := by
  unfold extractLinks at h
  rcases mem_foldl_insertNew [] h with h1 | h1
  · simp at h1
  · rcases List.mem_filterMap.mp h1 with ⟨href, hmem, heq⟩
    exact ⟨href, hmem, linkOf_some heq⟩

/-- The provenance of a crawl-frontier URL: extracted from some
fetchable page and resolved with `urljoin` against the homepage URL,
with its network location equal to the homepage's. -/
def linkProvenance (cfg : CrawlCfg) (u : String) : Prop :=
  ∃ pg pd href, cfg.fetch pg = some pd ∧ href ∈ pd.hrefs ∧
    (urlsplit (urljoin cfg.baseUrl href)).netloc = (urlsplit cfg.baseUrl).netloc ∧
    u = cleanUrlOf (urlsplit (urljoin cfg.baseUrl href))

/-- C5, amended: every link kept by `extract_links` comes from some href
of the page, resolved to absolute form with `urljoin` against the *base
argument*, and is kept only if its network location equals that base's
host; in `discover_pages` the base argument is always the homepage URL,
so every URL fetched at depth > 0 is an href resolved against the
homepage (not against the page it was found on) whose host equals the
homepage's host. -/
theorem C5_link_resolution_amended :
    (∀ (base : String) (hrefs : List String) (l : String), l ∈ extractLinks base hrefs →
      ∃ href ∈ hrefs, (urlsplit (urljoin base href)).netloc = (urlsplit base).netloc ∧
        l = cleanUrlOf (urlsplit (urljoin base href)))
  ∧ (∀ (cfg : CrawlCfg) (fuel : Nat) (r : CrawlResult), discoverPages cfg fuel = some r →
      ∀ x ∈ r.fetchLog, 0 < x.2 → linkProvenance cfg x.1) := by
  constructor
  · intro base hrefs l h
    exact mem_extractLinks h
  · intro cfg fuel r h
    unfold discoverPages at h
    split at h
    · simp only [Option.some.injEq] at h
      rw [← h]
      simp
    · refine crawlLoop_inv
        (P := fun s => (∀ e ∈ s.frontier, 0 < e.2.1 → linkProvenance cfg e.2.2) ∧
          (∀ x ∈ s.fetchLog, 0 < x.2 → linkProvenance cfg x.1))
        (Q := fun r => ∀ x ∈ r.fetchLog, 0 < x.2 → linkProvenance cfg x.1)
        ?_ ?_ fuel _ r ?_ h
      · intro s s' hP hstep
        obtain ⟨hfr, hlog⟩ := hP
        rcases crawlStep_next_cases cfg s s' hstep with ⟨e, rest, hpop, h1⟩ |
          ⟨nP, d, u, rest, hpop, _, _, _, _, _, _, h1⟩ |
          ⟨nP, d, u, rest, pd, hpop, _, _, _, _, _, hfetch, _, h1 | h1⟩ <;> subst h1
        · exact ⟨fun e he => hfr e (popMin_rest_subset hpop he), hlog⟩
        · refine ⟨fun e he => hfr e (popMin_rest_subset hpop he), ?_⟩
          intro x hx
          simp only [fetchedState, List.mem_append, List.mem_singleton] at hx
          rcases hx with hx | hx
          · exact hlog x hx
          · subst hx
            exact fun hd => hfr _ (popMin_mem hpop) hd
        · constructor
          · intro e he
            simp only [fetchedState, List.mem_append] at he
            rcases he with he | he
            · exact hfr e (popMin_rest_subset hpop he)
            · rcases mem_stepPushes he with ⟨l, hl, rfl⟩
              intro _
              rcases mem_extractLinks hl with ⟨href, hh, hnet, hcl⟩
              exact ⟨u, pd, href, hfetch, hh, hnet, hcl⟩
          · intro x hx
            simp only [fetchedState, List.mem_append, List.mem_singleton] at hx
            rcases hx with hx | hx
            · exact hlog x hx
            · subst hx
              exact fun hd => hfr _ (popMin_mem hpop) hd
        · refine ⟨fun e he => hfr e (popMin_rest_subset hpop he), ?_⟩
          intro x hx
          simp only [fetchedState, List.mem_append, List.mem_singleton] at hx
          rcases hx with hx | hx
          · exact hlog x hx
          · subst hx
            exact fun hd => hfr _ (popMin_mem hpop) hd
      · intro s r hP hstep
        obtain ⟨hfr, hlog⟩ := hP
        rcases crawlStep_done_cases cfg s r hstep with h1 |
          ⟨nP, d, u, rest, pd, hpop, _, _, _, _, _, _, _, h1⟩ <;> subst h1
        · exact hlog
        · intro x hx
          simp only [finishRun, fetchedState, List.mem_append, List.mem_singleton] at hx
          rcases hx with hx | hx
          · exact hlog x hx
          · subst hx
            exact fun hd => hfr _ (popMin_mem hpop) hd
      · refine ⟨?_, by simp [initState]⟩
        intro e he
        simp only [initState, List.mem_singleton] at he
        subst he
        intro hd
        simp at hd

/-- The concrete crawl graph refuting the resolve-against-own-page
reading of the spec. -/
def cexPageHome : PageData :=
  { title := "Home", hrefs := ["/sub/team.html"], mailtoCount := 0,
    nameMatchCount := 0, headingTextLower := "" }

def cexPageTeam : PageData :=
  { title := "Team", hrefs := ["staff.html"], mailtoCount := 1,
    nameMatchCount := 0, headingTextLower := "" }

def cexPageStaff : PageData :=
  { title := "Staff", hrefs := [], mailtoCount := 5,
    nameMatchCount := 0, headingTextLower := "" }

def cexFetch : String → Option PageData := fun u =>
  if u = "http://school.example/dir/home.html" then some cexPageHome
  else if u = "http://school.example/sub/team.html" then some cexPageTeam
  else if u = "http://school.example/dir/staff.html" then some cexPageStaff
  else none

def cexCfg : CrawlCfg :=
  { baseUrl := "http://school.example/dir/home.html", maxDepth := 3,
    maxPages := 10, fetch := cexFetch }

def cexResult : CrawlResult :=
  { pages := [{ url := "http://school.example/dir/staff.html", title := "Staff",
                score := 65, depth := 2 },
              { url := "http://school.example/sub/team.html", title := "Team",
                score := 35, depth := 1 }],
    fetchLog := [("http://school.example/dir/home.html", 0),
                 ("http://school.example/sub/team.html", 1),
                 ("http://school.example/dir/staff.html", 2)] }

/-- C5, counterexample to the claim as stated: in this crawl the page
fetched at depth 1 is `http://school.example/sub/team.html`, whose only
href `staff.html` resolves against that page to
`http://school.example/sub/staff.html`; yet the crawl fetches
`http://school.example/dir/staff.html` at depth 2 — the resolution of
`staff.html` against the *homepage* — and the own-page resolution never
appears in the fetch log or the result list. -/
theorem C5_counterexample :
    discoverPages cexCfg 30 = some cexResult
    ∧ urljoin "http://school.example/sub/team.html" "staff.html" =
        "http://school.example/sub/staff.html"
    ∧ urljoin cexCfg.baseUrl "staff.html" = "http://school.example/dir/staff.html"
    ∧ ("http://school.example/dir/staff.html", 2) ∈ cexResult.fetchLog
    ∧ (∀ d, ("http://school.example/sub/staff.html", d) ∉ cexResult.fetchLog)
    ∧ (∀ p ∈ cexResult.pages, p.url ≠ "http://school.example/sub/staff.html") := by
  refine ⟨by decide, by decide, by decide, by decide, ?_, by decide⟩
  intro d
  simp [cexResult]

/-! ## Claims C2 and C10: the discovery client -/

theorem processPlace_totalApiCalls (county q : String) (st : SearchState)
    (schools : List School) (p : Place) :
    (processPlace county q st schools p).1.totalApiCalls = st.totalApiCalls := by
  unfold processPlace
  dsimp only
  split
  · rfl
  · split
    · rfl
    · dsimp only
      split <;> rfl

theorem foldl_processPlace_totalApiCalls (county q : String) :
    ∀ (places : List Place) (st : SearchState) (schools : List School),
      ((places.foldl (fun acc p => processPlace county q acc.1 acc.2 p)
        (st, schools)).1).totalApiCalls = st.totalApiCalls := by
  intro places
  induction places with
  | nil => intro st schools; rfl
  | cons p ps ih =>
    intro st schools
    rw [List.foldl_cons]
    have h := ih (processPlace county q st schools p).1 (processPlace county q st schools p).2
    rw [h]
    exact processPlace_totalApiCalls county q st schools p

theorem searchCountyGo_total_le (api : Nat → Option (List Place)) (N : Nat)
    (mac pcl : Option Nat) (county : String) :
    ∀ (terms : List String) (st : SearchState) (schools : List School) (cc : Nat),
      st.totalApiCalls ≤ N →
      (searchCountyGo api (some N) mac pcl county terms st schools cc).1.totalApiCalls ≤ N := by
  intro terms
  induction terms with
  | nil => intro st schools cc h; exact h
  | cons q qs ih =>
    intro st schools cc h
    unfold searchCountyGo
    split
    · exact h
    · split
      · exact h
      · rename_i hlim _
        have hlt : st.totalApiCalls < N := by
          simp only [hitGlobalLimit, Bool.or_eq_true, decide_eq_true_eq] at hlim
          push_neg at hlim
          omega
        dsimp only
        cases happ : api st.totalApiCalls with
        | none =>
          dsimp only
          split
          · simpa using hlt
          · have := ih { st with totalApiCalls := st.totalApiCalls + 1 } schools (cc + 1)
              (by simpa using hlt)
            simpa using this
        | some places =>
          dsimp only
          have hfold := foldl_processPlace_totalApiCalls county q places
            { st with totalApiCalls := st.totalApiCalls + 1 } schools
          split
          · rw [hfold]
            simpa using hlt
          · refine ih _ _ (cc + 1) ?_
            rw [hfold]
            simpa using hlt

theorem searchCounty_total_le (api : Nat → Option (List Place)) (N : Nat)
    (county state : String) (mst mac pcl : Option Nat) (st : SearchState)
    (h : st.totalApiCalls ≤ N) :
    (searchCounty api (some N) county state mst mac pcl st).1.totalApiCalls ≤ N := by
  unfold searchCounty
  exact searchCountyGo_total_le api N mac pcl county _ st [] 0 h

theorem searchCountyGo_noop (api : Nat → Option (List Place)) (N : Nat)
    (mac pcl : Option Nat) (county : String) :
    ∀ (terms : List String) (st : SearchState) (schools : List School) (cc : Nat),
      N ≤ st.totalApiCalls →
      searchCountyGo api (some N) mac pcl county terms st schools cc = (st, schools) := by
  intro terms st schools cc h
  cases terms with
  | nil => rfl
  | cons q qs =>
    unfold searchCountyGo
    rw [if_pos]
    simp only [hitGlobalLimit, Bool.or_eq_true, decide_eq_true_eq]
    exact Or.inr h

/-- C2: for every call budget N the search issues at most N outbound
places-search calls over the whole run.  First conjunct: starting from
any counter value not above N, a whole batch run over any county list
leaves the counter at most N (with a zero start, at most N calls are
issued regardless of how many units or query templates exist).  Second
conjunct: once the counter has reached N, `search_county` issues no
further call in any unit — it returns its state unchanged and an empty
result list. -/
theorem C2_global_call_budget :
    (∀ (api : Nat → Option (List Place)) (N : Nat) (state : String)
       (counties : List String) (st : SearchState) (acc : List School),
       st.totalApiCalls ≤ N →
       (searchBatchCounties api (some N) state counties st acc).1.totalApiCalls ≤ N)
  ∧ (∀ (api : Nat → Option (List Place)) (N : Nat) (county state : String)
       (mst mac pcl : Option Nat) (st : SearchState), N ≤ st.totalApiCalls →
       searchCounty api (some N) county state mst mac pcl st = (st, [])) := by
  constructor
  · intro api N state counties
    induction counties with
    | nil => intro st acc h; exact h
    | cons c cs ih =>
      intro st acc h
      unfold searchBatchCounties
      split
      · exact h
      · dsimp only
        have hc := searchCounty_total_le api N c state none none none st h
        split
        · exact hc
        · exact ih _ _ hc
  · intro api N county state mst mac pcl st h
    unfold searchCounty
    exact searchCountyGo_noop api N mac pcl county _ st [] 0 h

/-- Every emitted school record passed the Texas gate. -/
def goodSchool (sch : School) : Prop :=
  sch.state = "Texas" ∧ isTexasResult sch.detected_state sch.address = true

theorem processPlace_schools (county q : String) (st : SearchState)
    (schools : List School) (p : Place) :
    ∀ sch ∈ (processPlace county q st schools p).2, sch ∈ schools ∨ goodSchool sch := by
  intro sch hmem
  unfold processPlace at hmem
  dsimp only at hmem
  split at hmem
  · exact Or.inl hmem
  · rename_i htex
    split at hmem
    · exact Or.inl hmem
    · dsimp only at hmem
      rw [List.mem_append] at hmem
      rcases hmem with hmem | hmem
      · exact Or.inl hmem
      · simp only [List.mem_singleton] at hmem
        subst hmem
        refine Or.inr ⟨rfl, ?_⟩
        simpa using htex

theorem foldl_processPlace_schools (county q : String) :
    ∀ (places : List Place) (st : SearchState) (schools : List School),
      ∀ sch ∈ (places.foldl (fun acc p => processPlace county q acc.1 acc.2 p)
        (st, schools)).2, sch ∈ schools ∨ goodSchool sch := by
  intro places
  induction places with
  | nil => intro st schools sch h; exact Or.inl h
  | cons p ps ih =>
    intro st schools sch h
    rw [List.foldl_cons] at h
    have h2 := ih (processPlace county q st schools p).1 (processPlace county q st schools p).2 sch h
    rcases h2 with h2 | h2
    · exact processPlace_schools county q st schools p sch h2
    · exact Or.inr h2

theorem searchCountyGo_schools (api : Nat → Option (List Place)) (globalMax : Option Nat)
    (mac pcl : Option Nat) (county : String) :
    ∀ (terms : List String) (st : SearchState) (schools : List School) (cc : Nat),
      ∀ sch ∈ (searchCountyGo api globalMax mac pcl county terms st schools cc).2,
        sch ∈ schools ∨ goodSchool sch := by
  intro terms
  induction terms with
  | nil => intro st schools cc sch h; exact Or.inl h
  | cons q qs ih =>
    intro st schools cc sch h
    unfold searchCountyGo at h
    split at h
    · exact Or.inl h
    · split at h
      · exact Or.inl h
      · dsimp only at h
        cases happ : api st.totalApiCalls with
        | none =>
          rw [happ] at h
          dsimp only at h
          split at h
          · exact Or.inl h
          · exact ih _ _ _ sch h
        | some places =>
          rw [happ] at h
          dsimp only at h
          split at h
          · exact foldl_processPlace_schools county q places _ schools sch h
          · have h2 := ih _ _ _ sch h
            rcases h2 with h2 | h2
            · exact foldl_processPlace_schools county q places _ schools sch h2
            · exact Or.inr h2

theorem searchBatchCounties_schools (api : Nat → Option (List Place))
    (globalMax : Option Nat) (state : String) :
    ∀ (counties : List String) (st : SearchState) (acc : List School),
      ∀ sch ∈ (searchBatchCounties api globalMax state counties st acc).2,
        sch ∈ acc ∨ goodSchool sch := by
  intro counties
  induction counties with
  | nil => intro st acc sch h; exact Or.inl h
  | cons c cs ih =>
    intro st acc sch h
    unfold searchBatchCounties at h
    split at h
    · exact Or.inl h
    · dsimp only at h
      have hco : ∀ x ∈ (searchCounty api globalMax c state none none none st).2,
          x ∈ ([] : List School) ∨ goodSchool x := by
        intro x hx
        unfold searchCounty at hx
        exact searchCountyGo_schools api globalMax none none c _ st [] 0 x hx
      split at h
      · rw [List.mem_append] at h
        rcases h with h | h
        · exact Or.inl h
        · rcases hco sch h with h2 | h2
          · simp at h2
          · exact Or.inr h2
      · rcases ih _ _ sch h with h2 | h2
        · rw [List.mem_append] at h2
          rcases h2 with h2 | h2
          · exact Or.inl h2
          · rcases hco sch h2 with h3 | h3
            · simp at h3
            · exact Or.inr h3
        · exact Or.inr h2

/-- C10: every organization record emitted by a Discovery run describes
a Texas result regardless of the state name the caller passes: its
`state` field is the literal "Texas" and it passed `_is_texas_result`
on its detected state and formatted address.  Second conjunct: a place
that fails the Texas test is dropped — `process`ing it leaves the
school list and the seen-id set unchanged and only increments the
`non_texas_skipped` statistic. -/
theorem C10_texas_only :
    (∀ (api : Nat → Option (List Place)) (globalMax : Option Nat) (state : String)
       (counties : List String) (st : SearchState),
       ∀ sch ∈ (searchBatchCounties api globalMax state counties st []).2,
         sch.state = "Texas" ∧ isTexasResult sch.detected_state sch.address = true)
  ∧ (∀ (county query : String) (st : SearchState) (schools : List School) (p : Place),
       isTexasResult (extractStateCounty p.addressComponents).1 p.formattedAddress = false →
       processPlace county query st schools p =
         ({ st with nonTexasSkipped := st.nonTexasSkipped + 1 }, schools)) := by
  constructor
  · intro api globalMax state counties st sch h
    rcases searchBatchCounties_schools api globalMax state counties st [] sch h with h2 | h2
    · simp at h2
    · exact h2
  · intro county query st schools p h
    unfold processPlace
    dsimp only
    rw [if_pos]
    simp [h]

/-! ## Claims C7, C8, C9: the compiler -/

/-- A cell is populated: a non-empty string (NaN and `""` are empty). -/
def FVal.nonEmpty : FVal → Prop
  | nanv => False
  | strv s => s ≠ ""

instance : DecidablePred FVal.nonEmpty := by
  intro v
  cases v <;> simp [FVal.nonEmpty] <;> infer_instance

/-- Row `a` extends row `b` at one field: where `b` is populated they
agree, where `b` is empty `a` is either identical or populated. -/
def fieldExtends (b a : FVal) : Prop :=
  (b.nonEmpty → a = b) ∧ (¬ b.nonEmpty → (a = b ∨ a.nonEmpty))

instance (b a : FVal) : Decidable (fieldExtends b a) := by
  unfold fieldExtends
  exact instDecidableAnd

theorem truthy_of_fieldExtends {b a : FVal} (h : fieldExtends b a)
    (ht : b.truthy = true) : a.truthy = true := by
  cases b with
  | nanv =>
    rcases h.2 (by simp [FVal.nonEmpty]) with h1 | h1
    · rw [h1]; rfl
    · cases a with
      | nanv => rfl
      | strv s => simp [FVal.nonEmpty] at h1; simp [FVal.truthy, h1]
  | strv s =>
    by_cases hs : s = ""
    · subst hs
      simp [FVal.truthy] at ht
    · rw [h.1 (by simp [FVal.nonEmpty, hs])]
      exact ht

theorem emailPtsV_empty {b : FVal} (h : ¬ b.nonEmpty) : emailPtsV b = 0 := by
  cases b with
  | nanv => rfl
  | strv s =>
    simp only [FVal.nonEmpty, not_not] at h
    subst h
    rfl

theorem titlePtsV_empty {b : FVal} (h : ¬ b.nonEmpty) : titlePtsV b = 0 := by
  cases b with
  | nanv => rfl
  | strv s =>
    simp only [FVal.nonEmpty, not_not] at h
    subst h
    rfl

theorem phonePtsV_empty {b : FVal} (h : ¬ b.nonEmpty) : phonePtsV b = 0 := by
  cases b with
  | nanv => rfl
  | strv s =>
    simp only [FVal.nonEmpty, not_not] at h
    subst h
    rfl

theorem namePtsV_mono {bf bl af al : FVal}
    (hf : bf.truthy = true → af.truthy = true)
    (hl : bl.truthy = true → al.truthy = true) :
    namePtsV bf bl ≤ namePtsV af al := by
  unfold namePtsV
  cases hbf : bf.truthy <;> cases hbl : bl.truthy <;>
    cases haf : af.truthy <;> cases hal : al.truthy <;>
    simp_all

/-- C7: populating additional fields never lowers the confidence score,
and the score is capped at 100.  `A` agrees with `B` on every populated
field of `B` and may populate fields `B` leaves empty (in particular
when `A`'s populated-field set is a strict superset of `B`'s). -/
theorem C7_confidence_monotone (A B : CRow)
    (hemail : fieldExtends B.email A.email)
    (hfirst : fieldExtends B.first_name A.first_name)
    (hlast : fieldExtends B.last_name A.last_name)
    (htitle : fieldExtends B.title A.title)
    (hphone : fieldExtends B.phone A.phone) :
    calculateConfidenceScore B ≤ calculateConfidenceScore A ∧
    calculateConfidenceScore A ≤ 100 := by
  have he : emailPtsV B.email ≤ emailPtsV A.email := by
    by_cases hne : B.email.nonEmpty
    · rw [hemail.1 hne]
    · rw [emailPtsV_empty hne]
      exact Nat.zero_le _
  have hn : namePtsV B.first_name B.last_name ≤ namePtsV A.first_name A.last_name :=
    namePtsV_mono (truthy_of_fieldExtends hfirst) (truthy_of_fieldExtends hlast)
  have ht : titlePtsV B.title ≤ titlePtsV A.title := by
    by_cases hne : B.title.nonEmpty
    · rw [htitle.1 hne]
    · rw [titlePtsV_empty hne]
      exact Nat.zero_le _
  have hp : phonePtsV B.phone ≤ phonePtsV A.phone := by
    by_cases hne : B.phone.nonEmpty
    · rw [hphone.1 hne]
    · rw [phonePtsV_empty hne]
      exact Nat.zero_le _
  unfold calculateConfidenceScore
  omega

/-! ### C8: deduplication -/

theorem dedupGo_sublist {K : Type} [DecidableEq K] (key : CRow → K) :
    ∀ (seen : List K) (l : List CRow), List.Sublist (dedupGo key seen l) l := by
  intro seen l
  induction l generalizing seen with
  | nil => simp [dedupGo]
  | cons r rs ih =>
    simp only [dedupGo]
    split
    · exact (ih seen).cons r
    · exact (ih (key r :: seen)).cons₂ r

theorem dedupGo_mem {K : Type} [DecidableEq K] (key : CRow → K) :
    ∀ (seen : List K) (l : List CRow) (r : CRow), r ∈ dedupGo key seen l → r ∈ l :=
  fun seen l _ h => (dedupGo_sublist key seen l).mem h

theorem dedupGo_key_not_seen {K : Type} [DecidableEq K] (key : CRow → K) :
    ∀ (seen : List K) (l : List CRow) (r : CRow), r ∈ dedupGo key seen l → key r ∉ seen := by
  intro seen l
  induction l generalizing seen with
  | nil => intro r h; simp [dedupGo] at h
  | cons x xs ih =>
    intro r h
    simp only [dedupGo] at h
    split at h
    · exact ih seen r h
    · rcases List.mem_cons.mp h with h1 | h1
      · subst h1
        assumption
      · have := ih (key x :: seen) r h1
        intro hc
        exact this (List.mem_cons_of_mem _ hc)

theorem dedupGo_keys_nodup {K : Type} [DecidableEq K] (key : CRow → K) :
    ∀ (seen : List K) (l : List CRow), ((dedupGo key seen l).map key).Nodup := by
  intro seen l
  induction l generalizing seen with
  | nil => simp [dedupGo]
  | cons x xs ih =>
    simp only [dedupGo]
    split
    · exact ih seen
    · simp only [List.map_cons, List.nodup_cons]
      refine ⟨?_, ih (key x :: seen)⟩
      intro hc
      rcases List.mem_map.mp hc with ⟨y, hy, hky⟩
      have := dedupGo_key_not_seen key (key x :: seen) xs y hy
      rw [hky] at this
      exact this (List.mem_cons_self _ _)

theorem dedupGo_maxconf {K : Type} [DecidableEq K] (key : CRow → K) :
    ∀ (seen : List K) (l : List CRow),
      l.Pairwise (fun a b => b.confidence_score ≤ a.confidence_score) →
      ∀ r ∈ dedupGo key seen l, ∀ s ∈ l, key s = key r →
        s.confidence_score ≤ r.confidence_score := by
  intro seen l
  induction l generalizing seen with
  | nil => intro _ r h; simp [dedupGo] at h
  | cons x xs ih =>
    intro hsort r hr s hs hk
    rcases List.pairwise_cons.mp hsort with ⟨hx, hxs⟩
    simp only [dedupGo] at hr
    split at hr
    · rename_i hseen
      have hnot := dedupGo_key_not_seen key seen xs r hr
      rcases List.mem_cons.mp hs with h1 | h1
      · subst h1
        rw [hk] at hseen
        exact absurd hseen hnot
      · exact ih seen hxs r hr s h1 hk
    · rcases List.mem_cons.mp hr with h1 | h1
      · subst h1
        rcases List.mem_cons.mp hs with h2 | h2
        · subst h2; exact le_refl _
        · exact hx s h2
      · have hnot := dedupGo_key_not_seen key (key x :: seen) xs r h1
        rcases List.mem_cons.mp hs with h2 | h2
        · subst h2
          rw [hk] at hnot
          exact absurd (List.mem_cons_self _ _) hnot
        · exact ih (key x :: seen) hxs r h1 s h2 hk

theorem sortByConfDesc_pairwise (l : List CRow) :
    (sortByConfDesc l).Pairwise (fun a b => b.confidence_score ≤ a.confidence_score) := by
  have h := sortDescK_pairwise (fun r : CRow => (r.confidence_score : Int)) l
  exact h.imp (fun hab => by exact_mod_cast hab)

theorem mem_sortByConfDesc {l : List CRow} {r : CRow} :
    r ∈ sortByConfDesc l ↔ r ∈ l := mem_sortDescK _ l r

theorem mem_dedupTriple {l : List CRow} {r : CRow}
    (h : r ∈ dedupByKey tripleOf (sortByConfDesc l)) : r ∈ l := by
  have := dedupGo_mem tripleOf [] _ r h
  exact mem_sortByConfDesc.mp this

theorem mem_deduplicateContacts {l : List CRow} {r : CRow}
    (h : r ∈ deduplicateContacts l) :
    r ∈ dedupByKey tripleOf (sortByConfDesc l) := by
  unfold deduplicateContacts at h
  dsimp only at h
  rw [List.mem_append] at h
  rcases h with h | h
  · split at h
    · have h2 := dedupGo_mem (fun r => r.email) [] _ r h
      rw [mem_sortByConfDesc] at h2
      exact List.mem_of_mem_filter h2
    · exact List.mem_of_mem_filter h
  · exact List.mem_of_mem_filter h

/-- Rows with scores computed, as `compile_final_csv` does before
deduplicating (step7.py:394). -/
def withScores (l : List CRow) : List CRow :=
  l.map (fun r => { r with confidence_score := calculateConfidenceScore r })

def janeNoEmail : CRow :=
  { school_name := .strv "Example School", first_name := .strv "Jane",
    last_name := .strv "Doe", title := .strv "Principal", email := .strv "",
    phone := .strv "", source_url := .strv "http://example.test/staff",
    confidence_score := 0 }

def janeWithEmail : CRow :=
  { janeNoEmail with email := .strv "jane.doe@example.org" }

def janeKept : CRow := { janeWithEmail with confidence_score := 70 }

/-- C8: after `deduplicate_contacts` no two retained records share the
same normalized (first name, last name, school name) triple; every
retained record has confidence at least that of every input record with
its triple; and on the concrete pair of Jane Doe rows differing only in
a valid email, exactly the email-carrying record (scored 70 against 50)
survives. -/
theorem C8_dedup_keeps_highest_confidence :
    (∀ l : List CRow,
      (deduplicateContacts l).Pairwise (fun a b => tripleOf a ≠ tripleOf b))
  ∧ (∀ l : List CRow, ∀ r ∈ deduplicateContacts l, ∀ s ∈ l,
      tripleOf s = tripleOf r → s.confidence_score ≤ r.confidence_score)
  ∧ deduplicateContacts (withScores [janeNoEmail, janeWithEmail]) = [janeKept] := by
  have hl2pw : ∀ l : List CRow,
      (dedupByKey tripleOf (sortByConfDesc l)).Pairwise
        (fun a b => tripleOf a ≠ tripleOf b) := by
    intro l
    have h := dedupGo_keys_nodup tripleOf [] (sortByConfDesc l)
    rw [List.Nodup, List.pairwise_map] at h
    exact h
  refine ⟨?_, ?_, by decide⟩
  · intro l
    unfold deduplicateContacts
    dsimp only
    have hsymm : Symmetric (fun a b : CRow => tripleOf a ≠ tripleOf b) :=
      fun a b h => Ne.symm h
    have hforall := (hl2pw l).forall hsymm
    rw [List.pairwise_append]
    refine ⟨?_, ?_, ?_⟩
    · -- the email-deduplicated part: its values are distinct and in l2
      split
      · rename_i hne
        have hkeys := dedupGo_keys_nodup (fun r => r.email) []
          (sortByConfDesc ((dedupByKey tripleOf (sortByConfDesc l)).filter emailPresent))
        have hvals : (dedupByKey (fun r => r.email)
            (sortByConfDesc ((dedupByKey tripleOf (sortByConfDesc l)).filter
              emailPresent))).Nodup := hkeys.of_map _
        refine hvals.imp_of_mem ?_
        intro a b ha hb hne2
        have ha2 : a ∈ dedupByKey tripleOf (sortByConfDesc l) := by
          have := dedupGo_mem (fun r => r.email) [] _ a ha
          rw [mem_sortByConfDesc] at this
          exact List.mem_of_mem_filter this
        have hb2 : b ∈ dedupByKey tripleOf (sortByConfDesc l) := by
          have := dedupGo_mem (fun r => r.email) [] _ b hb
          rw [mem_sortByConfDesc] at this
          exact List.mem_of_mem_filter this
        exact hforall ha2 hb2 hne2
      · rename_i hemp
        push_neg at hemp
        rw [hemp]
        simp
    · exact List.Pairwise.sublist (List.filter_sublist _) (hl2pw l)
    · intro a ha b hb
      have hae : emailPresent a = true := by
        split at ha
        · have := dedupGo_mem (fun r => r.email) [] _ a ha
          rw [mem_sortByConfDesc] at this
          exact List.of_mem_filter this
        · exact List.of_mem_filter ha
      have ha2 : a ∈ dedupByKey tripleOf (sortByConfDesc l) := by
        split at ha
        · have := dedupGo_mem (fun r => r.email) [] _ a ha
          rw [mem_sortByConfDesc] at this
          exact List.mem_of_mem_filter this
        · exact List.mem_of_mem_filter ha
      have hbe : emailPresent b = false := by
        have := List.of_mem_filter hb
        simpa using this
      have hb2 : b ∈ dedupByKey tripleOf (sortByConfDesc l) :=
        List.mem_of_mem_filter hb
      have hne : a ≠ b := by
        intro hc
        rw [hc, hbe] at hae
        exact absurd hae (by simp)
      exact hforall ha2 hb2 hne
  · intro l r hr s hs htrip
    have hr2 := mem_deduplicateContacts hr
    have hsort := sortByConfDesc_pairwise l
    exact dedupGo_maxconf tripleOf [] (sortByConfDesc l) hsort r hr2 s
      (mem_sortByConfDesc.mpr hs) htrip

/-! ### C9: the final CSV header -/

/-- C9, amended: the populated path of `compile_final_csv` writes the
eleven columns School Name, First Name, Last Name, Title, Email, Phone,
Source URL, Confidence Score, Date Collected, Verified, Notes in that
order; but when zero contacts survive validation the header-only file
carries only eight columns, with Confidence Score before Source URL and
without the three metadata columns. -/
theorem C9_final_csv_header_amended (rows : List CRow) :
    (surviveValidation rows ≠ [] →
      finalCsvHeader rows = ["School Name", "First Name", "Last Name", "Title",
        "Email", "Phone", "Source URL", "Confidence Score", "Date Collected",
        "Verified", "Notes"])
  ∧ (surviveValidation rows = [] →
      finalCsvHeader rows = ["School Name", "First Name", "Last Name", "Title",
        "Email", "Phone", "Confidence Score", "Source URL"]) := by
  constructor
  · intro h
    simp [finalCsvHeader, h, fullHeaderCols]
  · intro h
    simp [finalCsvHeader, h, emptyHeaderCols]

def c9Row : CRow :=
  { school_name := .strv "Sample School", first_name := .strv "John",
    last_name := .strv "Doe", title := .nanv, email := .nanv,
    phone := .nanv, source_url := .nanv, confidence_score := 0 }

/-- C9, counterexample to the claim as stated: on an input whose only
contact fails name validation ("John Doe" is a placeholder name), zero
contacts survive and the written header-only CSV does *not* carry the
claimed eleven columns — it has eight, with Confidence Score before
Source URL and no Date Collected / Verified / Notes. -/
theorem C9_counterexample :
    surviveValidation [c9Row] = []
    ∧ finalCsvHeader [c9Row] ≠ ["School Name", "First Name", "Last Name", "Title",
        "Email", "Phone", "Source URL", "Confidence Score", "Date Collected",
        "Verified", "Notes"]
    ∧ finalCsvHeader [c9Row] = ["School Name", "First Name", "Last Name", "Title",
        "Email", "Phone", "Confidence Score", "Source URL"] := by
  refine ⟨by decide, by decide, by decide⟩

/-! ## Witnesses: the claim theorems applied at concrete inputs -/

def cexU : Finset String :=
  {"http://school.example/dir/home.html", "http://school.example/sub/team.html",
   "http://school.example/dir/staff.html"}

theorem cexU_closed : fetchClosed cexCfg cexU := by
  constructor
  · decide
  · intro u pd h
    unfold cexCfg cexFetch at h
    dsimp only at h
    split at h
    · rename_i hu
      subst hu
      simp only [Option.some.injEq] at h
      subst h
      decide
    · split at h
      · rename_i hu
        subst hu
        simp only [Option.some.injEq] at h
        subst h
        decide
      · split at h
        · rename_i hu
          subst hu
          simp only [Option.some.injEq] at h
          subst h
          decide
        · exact absurd h (by simp)

theorem C1_crawler_termination_witness :
    (discoverPages cexCfg 230).isSome
    ∧ (cexResult.fetchLog.map Prod.fst).Nodup
    ∧ (stepPushes cexCfg ∅ 0 0 cexPageHome).length ≤ 75 :=
  ⟨C1_crawler_termination.1 cexCfg cexU cexU_closed 230 (by decide),
   C1_crawler_termination.2.1 cexCfg 30 cexResult (by decide),
   C1_crawler_termination.2.2 cexCfg ∅ 0 0 cexPageHome⟩

theorem C6_result_caps_witness :
    cexResult.pages.length ≤ 3 ∧ cexResult.pages.length ≤ cexCfg.maxPages :=
  C6_result_caps cexCfg 30 cexResult (by decide)

def c4Cfg : CrawlCfg :=
  { baseUrl := "http://a.xx/", maxDepth := 1, maxPages := 5, fetch := fun _ => none }

def c4State : CrawlState :=
  { frontier := [], visited := ∅, pages := [], staffFound := 3,
    fetchLog := [("http://a.xx/", 0)] }

def c4Result : CrawlResult := { pages := [], fetchLog := [("http://a.xx/", 0)] }

def c4Skip : CrawlState :=
  { frontier := [(0, 1, "http://a.xx/b")], visited := {"http://a.xx/b"},
    pages := [], staffFound := 3, fetchLog := [] }

def c4Next : CrawlState :=
  { frontier := [], visited := {"http://a.xx/b"}, pages := [], staffFound := 3,
    fetchLog := [] }

theorem C4_staff_cap_stops_crawl_witness :
    (c4Result.fetchLog = c4State.fetchLog ∧ c4Result.pages = finishPages c4State.pages)
    ∧ 3 ≤ c4Skip.staffFound :=
  ⟨C4_staff_cap_stops_crawl.1 c4Cfg 1 c4State c4Result (by decide) (by decide),
   C4_staff_cap_stops_crawl.2 c4Cfg c4Skip c4Next (by decide) (by decide)⟩

theorem C3_zero_priority_pruning_witness :
    hasZeroKeyword "https://x.y/contact-us" = true
    ∧ scorePagePriority "https://x.y/contact-us" = 0
    ∧ (cexCfg.baseUrl, 0) ∈ cexResult.fetchLog :=
  ⟨by decide,
   C3_zero_priority_pruning.1 "https://x.y/contact-us" (by decide),
   C3_zero_priority_pruning.2.2 cexCfg 30 cexResult (by decide) (by decide) (by decide)⟩

theorem C5_link_resolution_amended_witness :
    ("http://school.example/sub/team.html" ∈ extractLinks cexCfg.baseUrl cexPageHome.hrefs)
    ∧ (∃ href ∈ cexPageHome.hrefs,
        (urlsplit (urljoin cexCfg.baseUrl href)).netloc = (urlsplit cexCfg.baseUrl).netloc ∧
        "http://school.example/sub/team.html" =
          cleanUrlOf (urlsplit (urljoin cexCfg.baseUrl href)))
    ∧ linkProvenance cexCfg "http://school.example/sub/team.html" :=
  ⟨by decide,
   C5_link_resolution_amended.1 cexCfg.baseUrl cexPageHome.hrefs
     "http://school.example/sub/team.html" (by decide),
   C5_link_resolution_amended.2 cexCfg 30 cexResult (by decide)
     ("http://school.example/sub/team.html", 1) (by decide) (by decide)⟩

def api2 : Nat → Option (List Place) := fun _ => none

def st0 : SearchState :=
  { totalApiCalls := 0, seenPlaceIds := [], nonTexasSkipped := 0,
    schoolsWithWebsites := 0 }

def st3 : SearchState := { st0 with totalApiCalls := 3 }

theorem C2_global_call_budget_witness :
    (searchBatchCounties api2 (some 3) "Texas" ["Harris", "Bexar"] st0 []).1.totalApiCalls ≤ 3
    ∧ searchCounty api2 (some 3) "Harris" "Texas" none none none st3 = (st3, []) :=
  ⟨C2_global_call_budget.1 api2 3 "Texas" ["Harris", "Bexar"] st0 [] (by decide),
   C2_global_call_budget.2 api2 3 "Harris" "Texas" none none none st3 (by decide)⟩

def txPlace : Place :=
  { pid := "p1", displayName := "Grace Christian Academy",
    formattedAddress := "100 Main St, Houston, TX 77001, USA",
    websiteUri := "http://gca.example", nationalPhoneNumber := "713-555-0101",
    rating := "4.8", userRatingCount := "21", placeTypes := ["school"],
    businessStatus := "OPERATIONAL",
    addressComponents :=
      [{ compTypes := ["administrative_area_level_1", "political"],
         shortText := "TX", longText := "Texas", text := "" },
       { compTypes := ["administrative_area_level_2", "political"],
         shortText := "Harris County", longText := "Harris County", text := "" }] }

def okPlace : Place :=
  { txPlace with
    pid := "p2",
    formattedAddress := "1 Elm St, Norman, OK 73019, USA",
    addressComponents := [] }

def api10 : Nat → Option (List Place) := fun _ => some [txPlace]

def sch10 : School :=
  { place_id := "p1", name := "Grace Christian Academy",
    address := "100 Main St, Houston, TX 77001, USA",
    website := "http://gca.example", phone := "713-555-0101", rating := "4.8",
    user_ratings := "21", schoolTypes := "school",
    business_status := "OPERATIONAL", county := "Harris", state := "Texas",
    detected_state := "TX", found_via := "Christian schools" }

theorem C10_texas_only_witness :
    (searchBatchCounties api10 (some 1) "Texas" ["Harris"] st0 []).2 = [sch10]
    ∧ (sch10.state = "Texas" ∧ isTexasResult sch10.detected_state sch10.address = true)
    ∧ processPlace "Harris" "q" st0 [] okPlace =
        ({ st0 with nonTexasSkipped := st0.nonTexasSkipped + 1 }, []) :=
  ⟨by decide,
   C10_texas_only.1 api10 (some 1) "Texas" ["Harris"] st0 sch10 (by decide),
   C10_texas_only.2 "Harris" "q" st0 [] okPlace (by decide)⟩

def c7B : CRow :=
  { school_name := .strv "Example School", first_name := .strv "Jane",
    last_name := .strv "", title := .nanv, email := .strv "", phone := .nanv,
    source_url := .strv "http://example.test/staff", confidence_score := 0 }

def c7A : CRow :=
  { c7B with
    last_name := .strv "Doe",
    title := .strv "Principal",
    email := .strv "jane.doe@example.org",
    phone := .strv "555-111-2222" }

theorem C7_confidence_monotone_witness :
    calculateConfidenceScore c7B ≤ calculateConfidenceScore c7A ∧
    calculateConfidenceScore c7A ≤ 100 :=
  C7_confidence_monotone c7A c7B (by decide) (by decide) (by decide) (by decide)
    (by decide)

theorem C8_dedup_witness :
    (deduplicateContacts (withScores [janeNoEmail, janeWithEmail])).Pairwise
      (fun a b => tripleOf a ≠ tripleOf b)
    ∧ ({ janeNoEmail with confidence_score := 50 } : CRow).confidence_score ≤
        janeKept.confidence_score :=
  ⟨C8_dedup_keeps_highest_confidence.1 (withScores [janeNoEmail, janeWithEmail]),
   C8_dedup_keeps_highest_confidence.2.1 (withScores [janeNoEmail, janeWithEmail])
     janeKept (by decide) { janeNoEmail with confidence_score := 50 } (by decide)
     (by decide)⟩

def c9GoodRow : CRow :=
  { school_name := .strv "Sample School", first_name := .strv "Maria",
    last_name := .strv "Garcia", title := .nanv, email := .nanv,
    phone := .nanv, source_url := .nanv, confidence_score := 0 }

theorem C9_final_csv_header_witness :
    finalCsvHeader [c9GoodRow] = ["School Name", "First Name", "Last Name", "Title",
      "Email", "Phone", "Source URL", "Confidence Score", "Date Collected",
      "Verified", "Notes"]
    ∧ finalCsvHeader [c9Row] = ["School Name", "First Name", "Last Name", "Title",
      "Email", "Phone", "Confidence Score", "Source URL"] :=
  ⟨(C9_final_csv_header_amended [c9GoodRow]).1 (by decide),
   (C9_final_csv_header_amended [c9Row]).2 (by decide)⟩

end SchoolScraper
